import Mathlib

/-!
# pr-reviewer-service: the assignment engine

A shallow embedding of `internal/models/models.go`, of the repository of
`internal/repository/postgres/postgres.go` (as an in-memory store with the
same statements) and of the engine of `internal/service/service.go`.

* Identifiers and names are `String`; a `*time.Time` is an `Option Nat`.
* The environment of a run is explicit in `World`: the three tables, the
  outputs still to come from `math/rand` (`rand`), the storage failures still
  to come (`faults`, one slot per SQL statement), and the trace of the
  repository methods called so far (`calls`).
* A Go `(value, error)` result is an `Except Err value`; a `nil` pointer is
  `none`.
-/

namespace PRReviewer

/-! ## internal/models/models.go -/

structure User where
  UserID : String
  Username : String
  TeamName : String
  IsActive : Bool
deriving DecidableEq, Repr

structure TeamMember where
  UserID : String
  Username : String
  IsActive : Bool
deriving DecidableEq, Repr

structure Team where
  TeamName : String
  Members : List TeamMember
deriving DecidableEq, Repr

abbrev PullRequestStatus := String

def StatusOpen : PullRequestStatus := "OPEN"

def StatusMerged : PullRequestStatus := "MERGED"

structure PullRequest where
  PullRequestID : String
  PullRequestName : String
  AuthorID : String
  Status : PullRequestStatus
  AssignedReviewers : List String
  CreatedAt : Option Nat
  MergedAt : Option Nat
deriving DecidableEq, Repr

structure PullRequestShort where
  PullRequestID : String
  PullRequestName : String
  AuthorID : String
  Status : PullRequestStatus
deriving DecidableEq, Repr

structure ReviewStat where
  UserID : String
  Username : String
  ReviewCount : Nat
deriving DecidableEq, Repr

/-! ## Errors -/

/-- The error values of `service.go` (lines 13-21), the errors a repository
method returns (`storage`, with its message), and the run-time panic of a
`nil` pointer dereference (`nilDeref`), which is not a returned error. -/
inductive Err where
  | ErrTeamExists
  | ErrPRExists
  | ErrPRMerged
  | ErrNotAssigned
  | ErrNoCandidate
  | ErrNotFound
  | ErrBulkDeactivateFailed
  | storage (msg : String)
  | nilDeref
deriving DecidableEq, Repr

/-! ## The environment -/

/-- The methods of `repository.Repository` the engine calls. -/
inductive RepoCall where
  | CreateTeam
  | GetTeam
  | TeamExists
  | UpdateUserActivity
  | GetUser
  | CreatePR
  | GetPR
  | UpdatePRStatus
  | UpdatePRReviewers
  | GetPRsByReviewer
  | PRExists
  | GetReviewStats
deriving DecidableEq, Repr

/-- The repository methods that write to a table. -/
def RepoCall.isMutating : RepoCall → Bool
  | .CreateTeam => true
  | .UpdateUserActivity => true
  | .CreatePR => true
  | .UpdatePRStatus => true
  | .UpdatePRReviewers => true
  | _ => false

/-- The tables `teams`, `users`, `pull_requests` (rows in insertion order;
the `created_at` columns of `teams` and `users` are never read and are left
out), and the environment: pending storage failures, the trace of repository
calls, pending outputs of the random source. -/
structure World where
  teams : List String
  users : List User
  pull_requests : List PullRequest
  faults : List (Option String)
  calls : List RepoCall
  rand : List Nat
deriving DecidableEq, Repr

/-- The empty database. -/
def World.empty (faults : List (Option String)) (rand : List Nat) : World :=
  { teams := [], users := [], pull_requests := [], faults := faults, calls := [], rand := rand }

/-- Whether the next SQL statement fails, and with which driver error. -/
def World.failure (w : World) : Option String :=
  match w.faults with
  | some msg :: _ => some msg
  | _ => none

/-- One SQL statement has been issued. -/
def World.next (w : World) : World :=
  { w with faults := w.faults.tail }

/-- A repository method has been entered. -/
def World.logCall (w : World) (c : RepoCall) : World :=
  { w with calls := w.calls ++ [c] }

/-- Number of writing repository methods called so far. -/
def World.writes (w : World) : Nat :=
  w.calls.countP RepoCall.isMutating

/-- The function `rand.Intn(n)`: the next output of the source, in `[0, n)`. -/
def Intn (rnd : List Nat) (n : Nat) : Nat × List Nat :=
  (rnd.headD 0 % n, rnd.tail)

/-! ## internal/repository/postgres/postgres.go -/

/-- Lexicographic order on code points. -/
def lexLe : List Nat → List Nat → Bool
  | [], _ => true
  | _ :: _, [] => false
  | a :: as, b :: bs => decide (a < b) || (a == b && lexLe as bs)

/-- The order of `ORDER BY user_id` (code-point collation). -/
def userIDLe (a b : String) : Bool :=
  lexLe (a.toList.map Char.toNat) (b.toList.map Char.toNat)

/-- The order of `ORDER BY created_at DESC` (NULL first). -/
def createdAtDesc : Option Nat → Option Nat → Bool
  | none, _ => true
  | some _, none => false
  | some x, some y => decide (y ≤ x)

/-- The query `SELECT ... FROM users WHERE user_id = $1`. -/
def findUser (users : List User) (userID : String) : Option User :=
  users.find? (fun u => u.UserID == userID)

/-- The query `SELECT ... FROM pull_requests WHERE pull_request_id = $1`. -/
def findPR (prs : List PullRequest) (prID : String) : Option PullRequest :=
  prs.find? (fun p => p.PullRequestID == prID)

/-- The query `SELECT user_id, username, is_active FROM users WHERE team_name = $1 ORDER BY user_id`. -/
def teamMembers (users : List User) (teamName : String) : List TeamMember :=
  ((users.filter (fun u => u.TeamName == teamName)).insertionSort
      (fun a b => userIDLe a.UserID b.UserID = true)).map
    (fun u => { UserID := u.UserID, Username := u.Username, IsActive := u.IsActive })

/-- The statement `INSERT INTO users ... ON CONFLICT (user_id) DO UPDATE SET username, team_name, is_active`. -/
def upsertUser (users : List User) (teamName : String) (member : TeamMember) : List User :=
  if users.any (fun u => u.UserID == member.UserID) then
    users.map (fun u =>
      if u.UserID == member.UserID then
        { u with Username := member.Username, TeamName := teamName, IsActive := member.IsActive }
      else u)
  else
    users ++ [{ UserID := member.UserID, Username := member.Username,
                TeamName := teamName, IsActive := member.IsActive }]

/-- The loop over `team.Members` of `CreateTeam` (lines 53-65), inside the
transaction: `users` is the table as the transaction sees it. -/
def insertMembers (teamName : String) :
    List TeamMember → List User → World → Except Err (List User) × World
  | [], users, w => (.ok users, w)
  | member :: rest, users, w =>
    match w.failure with
    | some msg =>
      (.error (.storage ("failed to insert user " ++ member.UserID ++ ": " ++ msg)), w.next)
    | none => insertMembers teamName rest (upsertUser users teamName member) w.next

namespace PostgresRepository

/-- The method `CreateTeam` (lines 35-68): begin, insert the team
(`ON CONFLICT DO NOTHING`), upsert every member, commit; any failure rolls
the transaction back. -/
def CreateTeam (w : World) (team : Team) : Except Err Unit × World :=
  let w := w.logCall .CreateTeam
  match w.failure with
  | some msg => (.error (.storage msg), w.next)
  | none =>
    let w := w.next
    match w.failure with
    | some msg => (.error (.storage ("failed to insert team: " ++ msg)), w.next)
    | none =>
      let w := w.next
      match insertMembers team.TeamName team.Members w.users w with
      | (.error err, w) => (.error err, w)
      | (.ok users, w) =>
        match w.failure with
        | some msg => (.error (.storage msg), w.next)
        | none =>
          (.ok (), { w.next with
            teams := if team.TeamName ∈ w.teams then w.teams else w.teams ++ [team.TeamName],
            users := users })

/-- The method `GetTeam` (lines 70-93): `nil` when no user has that team name. -/
def GetTeam (w : World) (teamName : String) : Except Err (Option Team) × World :=
  let w := w.logCall .GetTeam
  match w.failure with
  | some msg => (.error (.storage ("failed to get team members: " ++ msg)), w.next)
  | none =>
    let members := teamMembers w.users teamName
    if members.length = 0 then (.ok none, w.next)
    else (.ok (some { TeamName := teamName, Members := members }), w.next)

/-- The query of `GetUser` (lines 97-110), without the trace entry. -/
def queryUser (w : World) (userID : String) : Except Err (Option User) × World :=
  match w.failure with
  | some msg => (.error (.storage ("failed to get user: " ++ msg)), w.next)
  | none => (.ok (findUser w.users userID), w.next)

/-- The method `GetUser` (lines 95-111). -/
def GetUser (w : World) (userID : String) : Except Err (Option User) × World :=
  queryUser (w.logCall .GetUser) userID

/-- The method `TeamExists` (lines 113-124). -/
def TeamExists (w : World) (teamName : String) : Except Err Bool × World :=
  let w := w.logCall .TeamExists
  match w.failure with
  | some msg => (.error (.storage ("failed to check team existence: " ++ msg)), w.next)
  | none => (.ok (decide (teamName ∈ w.teams)), w.next)

/-- The method `UpdateUserActivity` (lines 126-138): the `UPDATE`, then `r.GetUser`. -/
def UpdateUserActivity (w : World) (userID : String) (isActive : Bool) :
    Except Err (Option User) × World :=
  let w := w.logCall .UpdateUserActivity
  match w.failure with
  | some msg => (.error (.storage ("failed to update user activity: " ++ msg)), w.next)
  | none =>
    queryUser
      { w.next with
        users := w.users.map (fun u => if u.UserID == userID then { u with IsActive := isActive } else u) }
      userID

/-- The method `CreatePR` (lines 140-157): the `INSERT` does not name
`merged_at`, which is stored NULL; a row with the same primary key makes the
statement fail. -/
def CreatePR (w : World) (pr : PullRequest) : Except Err Unit × World :=
  let w := w.logCall .CreatePR
  match w.failure with
  | some msg => (.error (.storage ("failed to create PR: " ++ msg)), w.next)
  | none =>
    if w.pull_requests.any (fun p => p.PullRequestID == pr.PullRequestID) then
      (.error (.storage "failed to create PR: duplicate key"), w.next)
    else
      (.ok (), { w.next with pull_requests := w.pull_requests ++ [{ pr with MergedAt := none }] })

/-- The method `GetPR` (lines 159-184). -/
def GetPR (w : World) (prID : String) : Except Err (Option PullRequest) × World :=
  let w := w.logCall .GetPR
  match w.failure with
  | some msg => (.error (.storage ("failed to get PR: " ++ msg)), w.next)
  | none => (.ok (findPR w.pull_requests prID), w.next)

/-- The method `PRExists` (lines 186-197). -/
def PRExists (w : World) (prID : String) : Except Err Bool × World :=
  let w := w.logCall .PRExists
  match w.failure with
  | some msg => (.error (.storage ("failed to check PR existence: " ++ msg)), w.next)
  | none => (.ok (w.pull_requests.any (fun p => p.PullRequestID == prID)), w.next)

/-- The method `UpdatePRStatus` (lines 199-211). -/
def UpdatePRStatus (w : World) (prID : String) (status : PullRequestStatus) (mergedAt : Option Nat) :
    Except Err Unit × World :=
  let w := w.logCall .UpdatePRStatus
  match w.failure with
  | some msg => (.error (.storage ("failed to update PR status: " ++ msg)), w.next)
  | none =>
    (.ok (), { w.next with
      pull_requests := w.pull_requests.map (fun p =>
        if p.PullRequestID == prID then { p with Status := status, MergedAt := mergedAt } else p) })

/-- The method `UpdatePRReviewers` (lines 213-230). -/
def UpdatePRReviewers (w : World) (prID : String) (reviewers : List String) :
    Except Err Unit × World :=
  let w := w.logCall .UpdatePRReviewers
  match w.failure with
  | some msg => (.error (.storage ("failed to update PR reviewers: " ++ msg)), w.next)
  | none =>
    (.ok (), { w.next with
      pull_requests := w.pull_requests.map (fun p =>
        if p.PullRequestID == prID then { p with AssignedReviewers := reviewers } else p) })

/-- The rows of `GetPRsByReviewer`: `assigned_reviewers @> [userID]`, newest first. -/
def prsByReviewer (prs : List PullRequest) (userID : String) : List PullRequestShort :=
  ((prs.filter (fun p => decide (userID ∈ p.AssignedReviewers))).insertionSort
      (fun a b => createdAtDesc a.CreatedAt b.CreatedAt = true)).map
    (fun p => { PullRequestID := p.PullRequestID, PullRequestName := p.PullRequestName,
                AuthorID := p.AuthorID, Status := p.Status })

/-- The method `GetPRsByReviewer` (lines 232-250). -/
def GetPRsByReviewer (w : World) (userID : String) : Except Err (List PullRequestShort) × World :=
  let w := w.logCall .GetPRsByReviewer
  match w.failure with
  | some msg => (.error (.storage ("failed to get PRs by reviewer: " ++ msg)), w.next)
  | none => (.ok (prsByReviewer w.pull_requests userID), w.next)

/-- The method `GetReviewStats` (lines 253-275): per user, the number of OPEN
pull requests naming the user as reviewer, largest first. -/
def GetReviewStats (w : World) : Except Err (List ReviewStat) × World :=
  let w := w.logCall .GetReviewStats
  match w.failure with
  | some msg => (.error (.storage ("failed to get review stats: " ++ msg)), w.next)
  | none =>
    (.ok ((w.users.map (fun u =>
        ({ UserID := u.UserID, Username := u.Username,
           ReviewCount := w.pull_requests.countP (fun p =>
             p.Status == "OPEN" && decide (u.UserID ∈ p.AssignedReviewers)) } : ReviewStat))).insertionSort
        (fun a b => b.ReviewCount ≤ a.ReviewCount)), w.next)

end PostgresRepository

/-! ## internal/service/service.go -/

namespace Service

open PostgresRepository

/-- The method `CreateTeam` (lines 32-42). -/
def CreateTeam (w : World) (team : Team) : Except Err Unit × World :=
  match TeamExists w team.TeamName with
  | (.error err, w) => (.error err, w)
  | (.ok found, w) =>
    if found then (.error .ErrTeamExists, w)
    else PostgresRepository.CreateTeam w team

/-- The method `GetTeam` (lines 44-46). -/
def GetTeam (w : World) (teamName : String) : Except Err (Option Team) × World :=
  PostgresRepository.GetTeam w teamName

/-- The method `SetUserActivity` (lines 48-58). -/
def SetUserActivity (w : World) (userID : String) (isActive : Bool) :
    Except Err (Option User) × World :=
  match GetUser w userID with
  | (.error err, w) => (.error err, w)
  | (.ok none, w) => (.error .ErrNotFound, w)
  | (.ok (some _), w) => UpdateUserActivity w userID isActive

/-- Lines 61-67 of `selectReviewers`: the candidate pool. -/
def candidatePool (team : Team) (authorID : String) : List String :=
  (team.Members.filter (fun member => member.IsActive && member.UserID != authorID)).map
    (fun member => member.UserID)

/-- Lines 77-79 of `selectReviewers`: the second index after the adjustment step. -/
def secondIndex (idx1 idx2 : Nat) : Nat :=
  if idx2 = idx1 then idx2 + 1 else idx2

/-- The method `selectReviewers` (lines 60-82); `rnd` holds the outputs of
the random source, and the rest of it is returned. -/
def selectReviewers (team : Team) (authorID : String) (rnd : List Nat) : List String × List Nat :=
  let candidates := candidatePool team authorID
  if h : candidates.length ≤ 1 then (candidates, rnd)
  else
    let idx1 := (Intn rnd candidates.length).1
    let idx2 := (Intn (Intn rnd candidates.length).2 (candidates.length - 1)).1
    ([candidates.get ⟨idx1, Nat.mod_lt _ (by omega)⟩,
      candidates.get ⟨secondIndex idx1 idx2, by
        have h1 : idx1 < candidates.length := Nat.mod_lt _ (by omega)
        have h2 : idx2 < candidates.length - 1 := Nat.mod_lt _ (by omega)
        unfold secondIndex
        split <;> omega⟩],
     (Intn (Intn rnd candidates.length).2 (candidates.length - 1)).2)

/-- The method `contains` (lines 289-296). -/
def contains : List String → String → Bool
  | [], _ => false
  | s :: rest, item => if s == item then true else contains rest item

/-- The method `replaceReviewer` (lines 298-308). -/
def replaceReviewer : List String → String → String → List String
  | [], _, _ => []
  | reviewer :: rest, oldID, newID =>
    (if reviewer == oldID then newID else reviewer) :: replaceReviewer rest oldID newID

/-- Lines 312-323 of `selectReplacementReviewer`: the replacement pool. -/
def replacementPool (team : Team) (oldUserID authorID : String) (currentReviewers : List String) :
    List String :=
  (team.Members.filter (fun member =>
      member.IsActive && member.UserID != oldUserID && member.UserID != authorID &&
        !contains currentReviewers member.UserID)).map
    (fun member => member.UserID)

/-- The method `selectReplacementReviewer` (lines 311-330). -/
def selectReplacementReviewer (team : Team) (oldUserID authorID : String)
    (currentReviewers : List String) (rnd : List Nat) : String × List Nat :=
  let candidates := replacementPool team oldUserID authorID currentReviewers
  if h : candidates.length = 0 then ("", rnd)
  else
    (candidates.get ⟨(Intn rnd candidates.length).1, Nat.mod_lt _ (Nat.pos_of_ne_zero h)⟩,
     (Intn rnd candidates.length).2)

/-- Lines 105-126 of `CreatePR`: the code that follows `s.repo.GetTeam` once
it has returned the pointer `team` and no error. -/
def createPRWithTeam (w : World) (prID prName authorID : String) (now : Nat)
    (team : Option Team) : Except Err PullRequest × World :=
  match team with
  | none => (.error .ErrNotFound, w)
  | some team =>
    let reviewers := (selectReviewers team authorID w.rand).1
    let w := { w with rand := (selectReviewers team authorID w.rand).2 }
    let pr : PullRequest :=
      { PullRequestID := prID, PullRequestName := prName, AuthorID := authorID,
        Status := StatusOpen, AssignedReviewers := reviewers,
        CreatedAt := some now, MergedAt := none }
    match PostgresRepository.CreatePR w pr with
    | (.error err, w) => (.error err, w)
    | (.ok _, w) => (.ok pr, w)

/-- The method `CreatePR` (lines 84-127); `now` is the value of `time.Now()`. -/
def CreatePR (w : World) (prID prName authorID : String) (now : Nat) :
    Except Err PullRequest × World :=
  match PRExists w prID with
  | (.error err, w) => (.error err, w)
  | (.ok found, w) =>
    if found then (.error .ErrPRExists, w)
    else
      match GetUser w authorID with
      | (.error err, w) => (.error err, w)
      | (.ok none, w) => (.error .ErrNotFound, w)
      | (.ok (some author), w) =>
        match PostgresRepository.GetTeam w author.TeamName with
        | (.error err, w) => (.error err, w)
        | (.ok none, w) => (.error .ErrNotFound, w)
        | (.ok (some team), w) =>
          let reviewers := (selectReviewers team authorID w.rand).1
          let w := { w with rand := (selectReviewers team authorID w.rand).2 }
          let pr : PullRequest :=
            { PullRequestID := prID, PullRequestName := prName, AuthorID := authorID,
              Status := StatusOpen, AssignedReviewers := reviewers,
              CreatedAt := some now, MergedAt := none }
          match PostgresRepository.CreatePR w pr with
          | (.error err, w) => (.error err, w)
          | (.ok _, w) => (.ok pr, w)

/-- The method `MergePR` (lines 129-148); `now` is the value of `time.Now()`. -/
def MergePR (w : World) (prID : String) (now : Nat) : Except Err PullRequest × World :=
  match GetPR w prID with
  | (.error err, w) => (.error err, w)
  | (.ok none, w) => (.error .ErrNotFound, w)
  | (.ok (some pr), w) =>
    if pr.Status = StatusMerged then (.ok pr, w)
    else
      match UpdatePRStatus w prID StatusMerged (some now) with
      | (.error err, w) => (.error err, w)
      | (.ok _, w) => (.ok { pr with Status := StatusMerged, MergedAt := some now }, w)

/-- The method `ReassignReviewer` (lines 150-198). -/
def ReassignReviewer (w : World) (prID oldUserID : String) :
    Except Err (PullRequest × String) × World :=
  match GetPR w prID with
  | (.error err, w) => (.error err, w)
  | (.ok none, w) => (.error .ErrNotFound, w)
  | (.ok (some pr), w) =>
    if pr.Status = StatusMerged then (.error .ErrPRMerged, w)
    else if !contains pr.AssignedReviewers oldUserID then (.error .ErrNotAssigned, w)
    else
      match GetUser w oldUserID with
      | (.error err, w) => (.error err, w)
      | (.ok none, w) => (.error .ErrNotFound, w)
      | (.ok (some oldReviewer), w) =>
        match PostgresRepository.GetTeam w oldReviewer.TeamName with
        | (.error err, w) => (.error err, w)
        | (.ok none, w) => (.error .ErrNotFound, w)
        | (.ok (some team), w) =>
          let newReviewerID :=
            (selectReplacementReviewer team oldUserID pr.AuthorID pr.AssignedReviewers w.rand).1
          let w := { w with rand :=
            (selectReplacementReviewer team oldUserID pr.AuthorID pr.AssignedReviewers w.rand).2 }
          if newReviewerID = "" then (.error .ErrNoCandidate, w)
          else
            let newReviewers := replaceReviewer pr.AssignedReviewers oldUserID newReviewerID
            match UpdatePRReviewers w prID newReviewers with
            | (.error err, w) => (.error err, w)
            | (.ok _, w) => (.ok ({ pr with AssignedReviewers := newReviewers }, newReviewerID), w)

/-- The method `GetReviewStats` (lines 200-202). -/
def GetReviewStats (w : World) : Except Err (List ReviewStat) × World :=
  PostgresRepository.GetReviewStats w

/-- The method `selectReplacementReviewerForBulk` (lines 275-287). -/
def selectReplacementReviewerForBulk (w : World) (prID oldUserID teamName : String) :
    String × World :=
  match GetPR w prID with
  | (.error _, w) => ("", w)
  | (.ok none, w) => ("", w)
  | (.ok (some pr), w) =>
    match PostgresRepository.GetTeam w teamName with
    | (.error _, w) => ("", w)
    | (.ok none, w) => ("", w)
    | (.ok (some team), w) =>
      ((selectReplacementReviewer team oldUserID pr.AuthorID pr.AssignedReviewers w.rand).1,
       { w with rand :=
         (selectReplacementReviewer team oldUserID pr.AuthorID pr.AssignedReviewers w.rand).2 })

/-- The inner loop of the first phase of `BulkDeactivateUsers` (lines 222-229). -/
def bulkCheckPRs (userID teamName : String) : List PullRequestShort → World → Option Err × World
  | [], w => (none, w)
  | pr :: prs, w =>
    if pr.Status = StatusOpen then
      match selectReplacementReviewerForBulk w pr.PullRequestID userID teamName with
      | (newReviewer, w) =>
        if newReviewer = "" then (some .ErrBulkDeactivateFailed, w)
        else bulkCheckPRs userID teamName prs w
    else bulkCheckPRs userID teamName prs w

/-- The first phase of `BulkDeactivateUsers` (lines 208-230). -/
def bulkCheck : List String → World → Option Err × World
  | [], w => (none, w)
  | userID :: rest, w =>
    match GetUser w userID with
    | (.error err, w) => (some err, w)
    | (.ok none, w) => (some .ErrNotFound, w)
    | (.ok (some user), w) =>
      match GetPRsByReviewer w userID with
      | (.error err, w) => (some err, w)
      | (.ok prs, w) =>
        match bulkCheckPRs userID user.TeamName prs w with
        | (some err, w) => (some err, w)
        | (none, w) => bulkCheck rest w

/-- The inner loop of the second phase of `BulkDeactivateUsers` (lines
244-263); `user` is the pointer returned by `GetUser`, not checked for `nil`
before `user.TeamName` is read at line 254. -/
def bulkApplyPRs (userID : String) (user : Option User) :
    List PullRequestShort → World → Option Err × World
  | [], w => (none, w)
  | pr :: prs, w =>
    if pr.Status = StatusOpen then
      match GetPR w pr.PullRequestID with
      | (.error err, w) => (some err, w)
      | (.ok none, w) => bulkApplyPRs userID user prs w
      | (.ok (some fullPR), w) =>
        match user with
        | none => (some .nilDeref, w)
        | some u =>
          match selectReplacementReviewerForBulk w pr.PullRequestID userID u.TeamName with
          | (newReviewer, w) =>
            if newReviewer ≠ "" then
              match UpdatePRReviewers w pr.PullRequestID
                  (replaceReviewer fullPR.AssignedReviewers userID newReviewer) with
              | (.error err, w) => (some err, w)
              | (.ok _, w) => bulkApplyPRs userID user prs w
            else bulkApplyPRs userID user prs w
    else bulkApplyPRs userID user prs w

/-- The second phase of `BulkDeactivateUsers` (lines 233-272). -/
def bulkApply : List String → List String → World → (List String × Option Err) × World
  | [], deactivated, w => ((deactivated, none), w)
  | userID :: rest, deactivated, w =>
    match GetUser w userID with
    | (.error err, w) => ((deactivated, some err), w)
    | (.ok user, w) =>
      match GetPRsByReviewer w userID with
      | (.error err, w) => ((deactivated, some err), w)
      | (.ok prs, w) =>
        match bulkApplyPRs userID user prs w with
        | (some err, w) => ((deactivated, some err), w)
        | (none, w) =>
          match UpdateUserActivity w userID false with
          | (.error err, w) => ((deactivated, some err), w)
          | (.ok _, w) => bulkApply rest (deactivated ++ [userID]) w

/-- The method `BulkDeactivateUsers` (lines 204-273): the returned slice
(`none` is the `nil` slice) and the returned error. -/
def BulkDeactivateUsers (w : World) (userIDs : List String) :
    (Option (List String) × Option Err) × World :=
  match bulkCheck userIDs w with
  | (some err, w) => ((none, some err), w)
  | (none, w) =>
    match bulkApply userIDs [] w with
    | ((deactivated, err), w) => ((some deactivated, err), w)

/-- The method `GetReview` (lines 332-335): the error of the repository is dropped. -/
def GetReview (w : World) (userID : String) : List PullRequestShort × World :=
  match GetPRsByReviewer w userID with
  | (.error _, w) => ([], w)
  | (.ok prs, w) => (prs, w)

end Service

/-! ## Sequences of engine calls -/

/-- One call of the engine, with the value `time.Now()` takes in it. -/
inductive Call where
  | CreateTeam (team : Team)
  | CreatePR (prID prName authorID : String) (now : Nat)
  | MergePR (prID : String) (now : Nat)
  | ReassignReviewer (prID oldUserID : String)
  | SetUserActivity (userID : String) (isActive : Bool)
  | BulkDeactivateUsers (userIDs : List String)
deriving Repr

/-- The state after one engine call. -/
def step (w : World) : Call → World
  | .CreateTeam team => (Service.CreateTeam w team).2
  | .CreatePR prID prName authorID now => (Service.CreatePR w prID prName authorID now).2
  | .MergePR prID now => (Service.MergePR w prID now).2
  | .ReassignReviewer prID oldUserID => (Service.ReassignReviewer w prID oldUserID).2
  | .SetUserActivity userID isActive => (Service.SetUserActivity w userID isActive).2
  | .BulkDeactivateUsers userIDs => (Service.BulkDeactivateUsers w userIDs).2

/-- The state after a sequence of engine calls, run one after the other. -/
def run (w : World) (calls : List Call) : World :=
  calls.foldl step w

/-! ## Predicates used in the statements -/

/-- Both states hold the same tables, and no writing repository method was
called between them. -/
def Quiet (w w1 : World) : Prop :=
  w1.teams = w.teams ∧ w1.users = w.users ∧ w1.pull_requests = w.pull_requests ∧
    w1.writes = w.writes

/-- The reviewers of a pull request: at most two, no duplicates, not the author. -/
def ReviewersOK (p : PullRequest) : Prop :=
  p.AssignedReviewers.length ≤ 2 ∧ p.AssignedReviewers.Nodup ∧ p.AuthorID ∉ p.AssignedReviewers

/-- The primary keys of `users` and `pull_requests`. -/
def Keyed (w : World) : Prop :=
  (w.users.map (fun u => u.UserID)).Nodup ∧
    (w.pull_requests.map (fun p => p.PullRequestID)).Nodup

/-- The keys are unique and every pull request has well-formed reviewers. -/
def Inv (w : World) : Prop :=
  Keyed w ∧ ∀ p ∈ w.pull_requests, ReviewersOK p

/-- Every stored pull request with status MERGED has a merge time. -/
def MergedStamped (w : World) : Prop :=
  ∀ p ∈ w.pull_requests, p.Status = StatusMerged → p.MergedAt ≠ none

/-- Number of draws `(idx1, idx2)` in `[0,n) × [0,n-1)` for which the two
indices `selectReviewers` reads are `a` and `b`, in either order. -/
def drawsFor (n a b : Nat) : Nat :=
  ((List.range n).product (List.range (n - 1))).countP (fun d =>
    decide ((d.1 = a ∧ Service.secondIndex d.1 d.2 = b) ∨
            (d.1 = b ∧ Service.secondIndex d.1 d.2 = a)))

/-! ## Example data -/

/-- A team of four active users. -/
def exTeam : Team :=
  { TeamName := "T",
    Members := [⟨"u1", "a", true⟩, ⟨"u2", "b", true⟩, ⟨"u3", "c", true⟩, ⟨"u4", "d", true⟩] }

/-- A team of two users, the second one inactive. -/
def exPair : Team :=
  { TeamName := "S", Members := [⟨"v1", "a", true⟩, ⟨"v2", "b", false⟩] }

/-- The team `exTeam` created in an empty database, then the pull request
`p1` of `u1`, with the draws `0, 0`: its reviewers are `u2` and `u3`. -/
def exWorld : World :=
  run (World.empty [] [0, 0]) [.CreateTeam exTeam, .CreatePR "p1" "n" "u1" 5]

/-- A team of two active users. -/
def exDuo : Team :=
  { TeamName := "D", Members := [⟨"d1", "a", true⟩, ⟨"d2", "b", true⟩] }

/-- The team `exDuo` created in an empty database, then the pull request
`q1` of `d1`: its only reviewer is `d2`. -/
def exDuoWorld : World :=
  run (World.empty [] []) [.CreateTeam exDuo, .CreatePR "q1" "n" "d1" 3]

/-- The state `exWorld` after the pull request `p1` is merged at time 9. -/
def exMerged : World :=
  run exWorld [.MergePR "p1" 9]

/-- A team whose only member has the empty string as user id. -/
def exBlank : Team :=
  { TeamName := "B", Members := [⟨"", "x", true⟩] }

/-- The state `exWorld` when the next SQL statement fails. -/
def exDown : World :=
  { exWorld with faults := [some "down"] }

/-- The state `exWorld` when the third SQL statement from now fails. -/
def exDownThird : World :=
  { exWorld with faults := [none, none, some "down"] }

/-- A team with the user ids `""`, `b1`, `b2`, `b3`, all active. -/
def exBlankTeam : Team :=
  { TeamName := "B",
    Members := [⟨"", "x", true⟩, ⟨"b1", "a", true⟩, ⟨"b2", "b", true⟩, ⟨"b3", "c", true⟩] }

/-- The team `exBlankTeam` created in an empty database, then the pull
request `r1` of `b1` with the draws `1, 1`: its reviewers are `b2` and `b3`. -/
def exBlankWorld : World :=
  run (World.empty [] [1, 1]) [.CreateTeam exBlankTeam, .CreatePR "r1" "n" "b1" 4]

/-- The team `exTeam` created in an empty database, with the draws `0, 0` to come. -/
def exTeamOnly : World :=
  run (World.empty [] [0, 0]) [.CreateTeam exTeam]

/-! ## Lemmas on the environment and the repository -/

open Service PostgresRepository

theorem Quiet.refl (w : World) : Quiet w w := ⟨rfl, rfl, rfl, rfl⟩

theorem Quiet.trans {a b c : World} (h1 : Quiet a b) (h2 : Quiet b c) : Quiet a c := by
  obtain ⟨h11, h12, h13, h14⟩ := h1
  obtain ⟨h21, h22, h23, h24⟩ := h2
  exact ⟨h21.trans h11, h22.trans h12, h23.trans h13, h24.trans h14⟩

theorem quiet_read (w : World) (c : RepoCall) (hc : c.isMutating = false) :
    Quiet w (w.logCall c).next := by
  refine ⟨rfl, rfl, rfl, ?_⟩
  simp [World.writes, World.next, World.logCall, List.countP_append, hc]

theorem quiet_rand {w w1 : World} (r : List Nat) (h : Quiet w w1) :
    Quiet w { w1 with rand := r } := h

/-! ### Repository reads -/

theorem GetPR_snd (w : World) (prID : String) : (GetPR w prID).2 = (w.logCall .GetPR).next := by
  unfold GetPR; simp only []; split <;> rfl

theorem GetPR_ok {w w1 : World} {prID : String} {r : Option PullRequest}
    (h : GetPR w prID = (.ok r, w1)) : r = findPR w.pull_requests prID := by
  unfold GetPR at h; simp only [] at h
  split at h
  · cases h
  · cases h; rfl

theorem GetUser_snd (w : World) (userID : String) :
    (GetUser w userID).2 = (w.logCall .GetUser).next := by
  unfold GetUser queryUser; split <;> rfl

theorem GetUser_ok {w w1 : World} {userID : String} {r : Option User}
    (h : GetUser w userID = (.ok r, w1)) : r = findUser w.users userID := by
  unfold GetUser queryUser at h
  split at h
  · cases h
  · cases h; rfl

theorem GetTeam_snd (w : World) (teamName : String) :
    (PostgresRepository.GetTeam w teamName).2 = (w.logCall .GetTeam).next := by
  unfold PostgresRepository.GetTeam; simp only []; split
  · rfl
  · split <;> rfl

theorem GetTeam_ok_some {w w1 : World} {teamName : String} {team : Team}
    (h : PostgresRepository.GetTeam w teamName = (.ok (some team), w1)) :
    team = ⟨teamName, teamMembers w.users teamName⟩ ∧ teamMembers w.users teamName ≠ [] := by
  unfold PostgresRepository.GetTeam at h; simp only [] at h
  split at h
  · cases h
  · split at h
    · cases h
    · rename_i hl
      cases h
      refine ⟨rfl, ?_⟩
      intro h0; apply hl; simp [World.logCall] at *; simp [h0]

theorem GetPRsByReviewer_snd (w : World) (userID : String) :
    (GetPRsByReviewer w userID).2 = (w.logCall .GetPRsByReviewer).next := by
  unfold GetPRsByReviewer; simp only []; split <;> rfl

theorem GetPRsByReviewer_ok {w w1 : World} {userID : String} {r : List PullRequestShort}
    (h : GetPRsByReviewer w userID = (.ok r, w1)) : r = prsByReviewer w.pull_requests userID := by
  unfold GetPRsByReviewer at h; simp only [] at h
  split at h
  · cases h
  · cases h; rfl

theorem PRExists_snd (w : World) (prID : String) :
    (PRExists w prID).2 = (w.logCall .PRExists).next := by
  unfold PRExists; simp only []; split <;> rfl

theorem PRExists_ok {w w1 : World} {prID : String} {r : Bool}
    (h : PRExists w prID = (.ok r, w1)) :
    r = w.pull_requests.any (fun p => p.PullRequestID == prID) := by
  unfold PRExists at h; simp only [] at h
  split at h
  · cases h
  · cases h; rfl

theorem TeamExists_snd (w : World) (teamName : String) :
    (TeamExists w teamName).2 = (w.logCall .TeamExists).next := by
  unfold TeamExists; simp only []; split <;> rfl

theorem snd_of_eq {α β : Type} {p : α × β} {a : α} {b : β} (h : p = (a, b)) : b = p.2 := by
  rw [h]

theorem GetPR_quiet {w w1 : World} {prID : String} {r : Except Err (Option PullRequest)}
    (h : GetPR w prID = (r, w1)) : Quiet w w1 := by
  rw [snd_of_eq h, GetPR_snd]; exact quiet_read w _ rfl

theorem GetUser_quiet {w w1 : World} {userID : String} {r : Except Err (Option User)}
    (h : GetUser w userID = (r, w1)) : Quiet w w1 := by
  rw [snd_of_eq h, GetUser_snd]; exact quiet_read w _ rfl

theorem GetTeam_quiet {w w1 : World} {teamName : String} {r : Except Err (Option Team)}
    (h : PostgresRepository.GetTeam w teamName = (r, w1)) : Quiet w w1 := by
  rw [snd_of_eq h, GetTeam_snd]; exact quiet_read w _ rfl

theorem GetPRsByReviewer_quiet {w w1 : World} {userID : String}
    {r : Except Err (List PullRequestShort)}
    (h : GetPRsByReviewer w userID = (r, w1)) : Quiet w w1 := by
  rw [snd_of_eq h, GetPRsByReviewer_snd]; exact quiet_read w _ rfl

theorem PRExists_quiet {w w1 : World} {prID : String} {r : Except Err Bool}
    (h : PRExists w prID = (r, w1)) : Quiet w w1 := by
  rw [snd_of_eq h, PRExists_snd]; exact quiet_read w _ rfl

theorem TeamExists_quiet {w w1 : World} {teamName : String} {r : Except Err Bool}
    (h : TeamExists w teamName = (r, w1)) : Quiet w w1 := by
  rw [snd_of_eq h, TeamExists_snd]; exact quiet_read w _ rfl

/-- Reads leave the random source alone. -/
theorem GetPR_rand {w w1 : World} {prID : String} {r : Except Err (Option PullRequest)}
    (h : GetPR w prID = (r, w1)) : w1.rand = w.rand := by
  rw [snd_of_eq h, GetPR_snd]; rfl

theorem GetUser_rand {w w1 : World} {userID : String} {r : Except Err (Option User)}
    (h : GetUser w userID = (r, w1)) : w1.rand = w.rand := by
  rw [snd_of_eq h, GetUser_snd]; rfl

theorem GetTeam_rand {w w1 : World} {teamName : String} {r : Except Err (Option Team)}
    (h : PostgresRepository.GetTeam w teamName = (r, w1)) : w1.rand = w.rand := by
  rw [snd_of_eq h, GetTeam_snd]; rfl

theorem PRExists_rand {w w1 : World} {prID : String} {r : Except Err Bool}
    (h : PRExists w prID = (r, w1)) : w1.rand = w.rand := by
  rw [snd_of_eq h, PRExists_snd]; rfl

/-! ### Repository writes -/

theorem UpdatePRReviewers_ok {w w1 : World} {prID : String} {reviewers : List String} {u : Unit}
    (h : UpdatePRReviewers w prID reviewers = (.ok u, w1)) :
    w1.teams = w.teams ∧ w1.users = w.users ∧
      w1.pull_requests = w.pull_requests.map (fun p =>
        if p.PullRequestID == prID then { p with AssignedReviewers := reviewers } else p) := by
  unfold UpdatePRReviewers at h; simp only [] at h
  split at h
  · cases h
  · cases h; exact ⟨rfl, rfl, rfl⟩

theorem UpdatePRReviewers_error {w w1 : World} {prID : String} {reviewers : List String} {e : Err}
    (h : UpdatePRReviewers w prID reviewers = (.error e, w1)) :
    w1.teams = w.teams ∧ w1.users = w.users ∧ w1.pull_requests = w.pull_requests ∧
      ∃ msg, e = .storage msg := by
  unfold UpdatePRReviewers at h; simp only [] at h
  split at h
  · cases h; exact ⟨rfl, rfl, rfl, _, rfl⟩
  · cases h

/-! ## Lemmas on reviewer selection -/

theorem Intn_fst_lt (rnd : List Nat) {n : Nat} (h : 0 < n) : (Intn rnd n).1 < n := by
  simp only [Intn]; exact Nat.mod_lt _ h

theorem Intn_cons_of_lt {i n : Nat} (rest : List Nat) (h : i < n) :
    Intn (i :: rest) n = (i, rest) := by
  simp [Intn, Nat.mod_eq_of_lt h]

theorem secondIndex_ne (idx1 idx2 : Nat) : Service.secondIndex idx1 idx2 ≠ idx1 := by
  unfold Service.secondIndex; split <;> omega

theorem secondIndex_lt {n idx1 idx2 : Nat} (h1 : idx1 < n) (h2 : idx2 < n - 1) :
    Service.secondIndex idx1 idx2 < n := by
  unfold Service.secondIndex; split <;> omega

theorem mem_candidatePool {team : Team} {authorID id : String} :
    id ∈ candidatePool team authorID ↔
      ∃ m ∈ team.Members, m.UserID = id ∧ m.IsActive = true ∧ id ≠ authorID := by
  simp only [candidatePool, List.mem_map, List.mem_filter, Bool.and_eq_true, bne_iff_ne, ne_eq]
  constructor
  · rintro ⟨m, ⟨hm, ha, hne⟩, rfl⟩; exact ⟨m, hm, rfl, ha, hne⟩
  · rintro ⟨m, hm, rfl, ha, hne⟩; exact ⟨m, ⟨hm, ha, hne⟩, rfl⟩

theorem candidatePool_nodup {team : Team} (authorID : String)
    (h : (team.Members.map (fun m => m.UserID)).Nodup) : (candidatePool team authorID).Nodup := by
  unfold candidatePool
  exact h.sublist ((List.filter_sublist _).map _)

theorem selectReviewers_small {team : Team} {authorID : String} (rnd : List Nat)
    (h : (candidatePool team authorID).length ≤ 1) :
    selectReviewers team authorID rnd = (candidatePool team authorID, rnd) := by
  unfold selectReviewers
  simp [h]

theorem selectReviewers_pair {team : Team} {authorID : String} (rnd : List Nat)
    (h : 2 ≤ (candidatePool team authorID).length) :
    ∃ a b, (selectReviewers team authorID rnd).1 = [a, b] ∧
      (candidatePool team authorID)[(Intn rnd (candidatePool team authorID).length).1]? = some a ∧
      (candidatePool team authorID)[secondIndex (Intn rnd (candidatePool team authorID).length).1
        (Intn (Intn rnd (candidatePool team authorID).length).2
          ((candidatePool team authorID).length - 1)).1]? = some b := by
  have hn : ¬ (candidatePool team authorID).length ≤ 1 := by omega
  unfold selectReviewers
  simp only [hn, dite_false]
  refine ⟨_, _, rfl, ?_, ?_⟩
  · simp [List.getElem?_eq_getElem]
  · simp [List.getElem?_eq_getElem]

/-! ## Successful runs of `CreatePR` and `ReassignReviewer` -/

theorem repoCreatePR_ok {w w1 : World} {pr : PullRequest} {u : Unit}
    (h : PostgresRepository.CreatePR w pr = (.ok u, w1)) :
    w1.teams = w.teams ∧ w1.users = w.users ∧
      w1.pull_requests = w.pull_requests ++ [{ pr with MergedAt := none }] ∧
      w.pull_requests.any (fun p => p.PullRequestID == pr.PullRequestID) = false := by
  unfold PostgresRepository.CreatePR at h; simp only [] at h
  split at h
  · cases h
  · split at h
    · cases h
    · rename_i hany
      cases h
      exact ⟨rfl, rfl, rfl, by simpa [World.logCall] using hany⟩

theorem repoCreatePR_error {w w1 : World} {pr : PullRequest} {e : Err}
    (h : PostgresRepository.CreatePR w pr = (.error e, w1)) :
    w1.teams = w.teams ∧ w1.users = w.users ∧ w1.pull_requests = w.pull_requests := by
  unfold PostgresRepository.CreatePR at h; simp only [] at h
  split at h
  · cases h; exact ⟨rfl, rfl, rfl⟩
  · split at h
    · cases h; exact ⟨rfl, rfl, rfl⟩
    · cases h

theorem CreatePR_ok {w w' : World} {prID prName authorID : String} {now : Nat} {pr : PullRequest}
    (h : Service.CreatePR w prID prName authorID now = (.ok pr, w')) :
    ∃ author, findUser w.users authorID = some author ∧
      teamMembers w.users author.TeamName ≠ [] ∧
      w.pull_requests.any (fun p => p.PullRequestID == prID) = false ∧
      pr = { PullRequestID := prID, PullRequestName := prName, AuthorID := authorID,
             Status := StatusOpen,
             AssignedReviewers :=
               (selectReviewers ⟨author.TeamName, teamMembers w.users author.TeamName⟩
                 authorID w.rand).1,
             CreatedAt := some now, MergedAt := none } ∧
      w'.pull_requests = w.pull_requests ++ [pr] ∧ w'.users = w.users ∧ w'.teams = w.teams := by
  unfold Service.CreatePR at h
  split at h
  · cases h
  · rename_i found w1 h1
    split at h
    · cases h
    · rename_i hfound
      split at h
      · cases h
      · cases h
      · rename_i author w2 h2
        split at h
        · cases h
        · cases h
        · rename_i team w3 h3
          simp only at h
          split at h
          · cases h
          · rename_i u w4 h4
            have q1 := PRExists_quiet h1
            have q2 := GetUser_quiet h2
            have q3 := GetTeam_quiet h3
            have q := (q1.trans q2).trans q3
            have r := ((GetTeam_rand h3).trans (GetUser_rand h2)).trans (PRExists_rand h1)
            obtain ⟨ht, hne⟩ := GetTeam_ok_some h3
            have hu := GetUser_ok h2
            have hex := PRExists_ok h1
            obtain ⟨c1, c2, c3, c4⟩ := repoCreatePR_ok h4
            simp only [Prod.mk.injEq, Except.ok.injEq] at h
            obtain ⟨hpr, hw⟩ := h
            subst hw
            rw [q2.2.1, q1.2.1] at hne ht
            rw [q1.2.1] at hu
            refine ⟨author, hu.symm, hne, ?_, ?_, ?_, ?_, ?_⟩
            · rw [← hex]; simpa using hfound
            · rw [← hpr, r, ht]
            · rw [c3, ← hpr]; simp only [q.2.2.1]
            · rw [c2]; exact q.2.1
            · rw [c1]; exact q.1

theorem ReassignReviewer_ok {w w' : World} {prID old new : String} {pr' : PullRequest}
    (h : ReassignReviewer w prID old = (.ok (pr', new), w')) :
    ∃ pr oldReviewer, findPR w.pull_requests prID = some pr ∧ pr.Status ≠ StatusMerged ∧
      contains pr.AssignedReviewers old = true ∧ findUser w.users old = some oldReviewer ∧
      teamMembers w.users oldReviewer.TeamName ≠ [] ∧
      new = (selectReplacementReviewer ⟨oldReviewer.TeamName, teamMembers w.users oldReviewer.TeamName⟩
              old pr.AuthorID pr.AssignedReviewers w.rand).1 ∧
      new ≠ "" ∧
      pr' = { pr with AssignedReviewers := replaceReviewer pr.AssignedReviewers old new } ∧
      w'.pull_requests = w.pull_requests.map (fun p =>
        if p.PullRequestID == prID then
          { p with AssignedReviewers := replaceReviewer pr.AssignedReviewers old new } else p) ∧
      w'.users = w.users ∧ w'.teams = w.teams := by
  unfold ReassignReviewer at h
  split at h
  · cases h
  · cases h
  · rename_i pr w1 h1
    split at h
    · cases h
    · split at h
      · cases h
      · rename_i hst hc
        split at h
        · cases h
        · cases h
        · rename_i u w2 h2
          split at h
          · cases h
          · cases h
          · rename_i team w3 h3
            simp only at h
            split at h
            · cases h
            · split at h
              · cases h
              · rename_i hne _ x w4 h4
                have q1 := GetPR_quiet h1
                have q2 := GetUser_quiet h2
                have q3 := GetTeam_quiet h3
                have q := (q1.trans q2).trans q3
                have r := ((GetTeam_rand h3).trans (GetUser_rand h2)).trans (GetPR_rand h1)
                obtain ⟨ht, htne⟩ := GetTeam_ok_some h3
                have hu := GetUser_ok h2
                have hp := GetPR_ok h1
                obtain ⟨c1, c2, c3⟩ := UpdatePRReviewers_ok h4
                simp only [Prod.mk.injEq, Except.ok.injEq] at h
                obtain ⟨⟨hpr, hnew⟩, hw⟩ := h
                subst hw
                rw [q2.2.1, q1.2.1] at htne ht
                rw [q1.2.1] at hu
                rw [r, ht] at hnew hne
                rw [hnew] at hne
                subst ht
                refine ⟨pr, u, hp.symm, hst, by simpa using hc, hu.symm, htne, hnew.symm, hne,
                  ?_, ?_, ?_, ?_⟩
                · rw [← hpr, r, hnew]
                · rw [c3]; simp only [q.2.2.1, r, hnew]
                · rw [c2]; exact q.2.1
                · rw [c1]; exact q.1

/-! ## Lemmas on replacement -/

theorem contains_iff (l : List String) (x : String) : contains l x = true ↔ x ∈ l := by
  induction l with
  | nil => simp [contains]
  | cons a t ih =>
    unfold contains
    by_cases h : a = x
    · simp [h]
    · have h2 : ¬ x = a := fun e => h e.symm
      simp [h, h2, ih]

theorem replaceReviewer_eq_map (l : List String) (oldID newID : String) :
    replaceReviewer l oldID newID = l.map (fun r => if r == oldID then newID else r) := by
  induction l with
  | nil => rfl
  | cons a t ih => simp [replaceReviewer, ih]

theorem length_replaceReviewer (l : List String) (oldID newID : String) :
    (replaceReviewer l oldID newID).length = l.length := by
  simp [replaceReviewer_eq_map]

theorem mem_replaceReviewer {l : List String} {oldID newID x : String}
    (h : x ∈ replaceReviewer l oldID newID) : x = newID ∨ (x ∈ l ∧ x ≠ oldID) := by
  rw [replaceReviewer_eq_map, List.mem_map] at h
  obtain ⟨r, hr, rfl⟩ := h
  by_cases e : r = oldID
  · left; simp [e]
  · right; simp [e, hr]

theorem replaceReviewer_nodup {l : List String} {oldID newID : String}
    (hl : l.Nodup) (hn : newID ∉ l) : (replaceReviewer l oldID newID).Nodup := by
  induction l with
  | nil => simp [replaceReviewer]
  | cons a t ih =>
    simp only [List.nodup_cons, List.mem_cons, not_or] at hl hn
    simp only [replaceReviewer, List.nodup_cons]
    refine ⟨?_, ih hl.2 hn.2⟩
    intro hmem
    by_cases e : a = oldID
    · subst e
      simp only [beq_self_eq_true, if_true] at hmem
      rw [replaceReviewer_eq_map, List.mem_map] at hmem
      obtain ⟨r, hr, hrr⟩ := hmem
      by_cases e2 : r = a
      · subst e2; exact hl.1 hr
      · simp only [beq_iff_eq, e2, if_false] at hrr
        subst hrr; exact hn.2 hr
    · have hb : (a == oldID) = false := by simpa using e
      simp only [hb] at hmem
      rcases mem_replaceReviewer hmem with h | ⟨h1, _⟩
      · exact hn.1 (by simpa using h.symm)
      · exact hl.1 (by simpa using h1)

theorem mem_replacementPool {team : Team} {oldUserID authorID id : String}
    {currentReviewers : List String} :
    id ∈ replacementPool team oldUserID authorID currentReviewers ↔
      ∃ m ∈ team.Members, m.UserID = id ∧ m.IsActive = true ∧ id ≠ oldUserID ∧ id ≠ authorID ∧
        id ∉ currentReviewers := by
  simp only [replacementPool, List.mem_map, List.mem_filter, Bool.and_eq_true, bne_iff_ne, ne_eq,
    Bool.not_eq_true', ← Bool.not_eq_true, contains_iff]
  constructor
  · rintro ⟨m, ⟨hm, ⟨⟨ha, ho⟩, hau⟩, hc⟩, rfl⟩; exact ⟨m, hm, rfl, ha, ho, hau, hc⟩
  · rintro ⟨m, hm, rfl, ha, ho, hau, hc⟩; exact ⟨m, ⟨hm, ⟨⟨ha, ho⟩, hau⟩, hc⟩, rfl⟩

theorem selectReplacementReviewer_nil {team : Team} {oldUserID authorID : String}
    {currentReviewers : List String} (rnd : List Nat)
    (h : replacementPool team oldUserID authorID currentReviewers = []) :
    selectReplacementReviewer team oldUserID authorID currentReviewers rnd = ("", rnd) := by
  unfold selectReplacementReviewer
  simp [h]

theorem selectReplacementReviewer_mem {team : Team} {oldUserID authorID : String}
    {currentReviewers : List String} (rnd : List Nat)
    (h : replacementPool team oldUserID authorID currentReviewers ≠ []) :
    (selectReplacementReviewer team oldUserID authorID currentReviewers rnd).1 ∈
      replacementPool team oldUserID authorID currentReviewers := by
  unfold selectReplacementReviewer
  have : ¬ (replacementPool team oldUserID authorID currentReviewers).length = 0 := by
    simpa using h
  simp only [this, dite_false]
  exact List.get_mem _ _ _

/-- A selection other than the empty string is a member of the replacement pool. -/
theorem selectReplacementReviewer_ne {team : Team} {oldUserID authorID : String}
    {currentReviewers : List String} {rnd : List Nat}
    (h : (selectReplacementReviewer team oldUserID authorID currentReviewers rnd).1 ≠ "") :
    (selectReplacementReviewer team oldUserID authorID currentReviewers rnd).1 ∈
      replacementPool team oldUserID authorID currentReviewers := by
  by_cases e : replacementPool team oldUserID authorID currentReviewers = []
  · rw [selectReplacementReviewer_nil rnd e] at h; exact absurd rfl h
  · exact selectReplacementReviewer_mem rnd e

theorem findPR_map_reviewers (prs : List PullRequest) (prID : String) (reviewers : List String) :
    findPR (prs.map (fun p =>
        if p.PullRequestID == prID then { p with AssignedReviewers := reviewers } else p)) prID =
      (findPR prs prID).map (fun p => { p with AssignedReviewers := reviewers }) := by
  induction prs with
  | nil => rfl
  | cons a t ih =>
    unfold findPR at ih ⊢
    by_cases e : a.PullRequestID = prID
    · simp [List.find?, e]
    · have : (a.PullRequestID == prID) = false := by simpa using e
      simp only [List.map_cons, this, List.find?, Bool.false_eq_true, if_false]
      exact ih

/-! ## Initial selection: count, distinctness, eligibility -/

theorem candidatePool_length (team : Team) (authorID : String) :
    (candidatePool team authorID).length =
      team.Members.countP (fun m => decide (m.IsActive = true ∧ m.UserID ≠ authorID)) := by
  unfold candidatePool
  rw [List.length_map, List.countP_eq_length_filter]
  congr 2
  funext m
  by_cases h1 : m.IsActive = true <;> by_cases h2 : m.UserID = authorID <;> simp [h1, h2]

theorem candidatePool_eq (team : Team) (authorID : String) :
    candidatePool team authorID =
      (team.Members.filter (fun m => decide (m.IsActive = true ∧ m.UserID ≠ authorID))).map
        (fun m => m.UserID) := by
  unfold candidatePool
  congr 2
  funext m
  by_cases h1 : m.IsActive = true <;> by_cases h2 : m.UserID = authorID <;> simp [h1, h2]

theorem selectReviewers_length (team : Team) (authorID : String) (rnd : List Nat) :
    (selectReviewers team authorID rnd).1.length = min (candidatePool team authorID).length 2 := by
  by_cases h : (candidatePool team authorID).length ≤ 1
  · rw [selectReviewers_small rnd h]; simp; omega
  · obtain ⟨a, b, hab, _, _⟩ := @selectReviewers_pair team authorID rnd (by omega)
    rw [hab]; simp; omega

theorem selectReviewers_subset {team : Team} {authorID id : String} {rnd : List Nat}
    (h : id ∈ (selectReviewers team authorID rnd).1) : id ∈ candidatePool team authorID := by
  by_cases hs : (candidatePool team authorID).length ≤ 1
  · rwa [selectReviewers_small rnd hs] at h
  · obtain ⟨a, b, hab, ha, hb⟩ :=
      @selectReviewers_pair team authorID rnd (by omega)
    rw [hab] at h
    simp only [List.mem_cons, List.mem_singleton, List.not_mem_nil, or_false] at h
    rcases h with rfl | rfl
    · exact List.getElem?_mem ha
    · exact List.getElem?_mem hb

/-- C5: with `k` the number of members of the team that are active and are
not the author, `selectReviewers` returns `min k 2` ids, and the candidate
pool itself, in team order, when `k ≤ 1`; a pull request `CreatePR` creates
has `min k 2` reviewers, `k` counted in the team of its author. -/
theorem selectReviewers_count (team : Team) (authorID : String) (rnd : List Nat) :
    ((selectReviewers team authorID rnd).1.length =
      min (team.Members.countP (fun m => decide (m.IsActive = true ∧ m.UserID ≠ authorID))) 2) ∧
    (team.Members.countP (fun m => decide (m.IsActive = true ∧ m.UserID ≠ authorID)) ≤ 1 →
      (selectReviewers team authorID rnd).1 =
        (team.Members.filter (fun m => decide (m.IsActive = true ∧ m.UserID ≠ authorID))).map
          (fun m => m.UserID)) ∧
    (∀ (w w' : World) (prID prName : String) (now : Nat) (pr : PullRequest),
      Service.CreatePR w prID prName authorID now = (.ok pr, w') →
      ∃ author, findUser w.users authorID = some author ∧
        pr.AssignedReviewers.length =
          min ((teamMembers w.users author.TeamName).countP
            (fun m => decide (m.IsActive = true ∧ m.UserID ≠ authorID))) 2) := by
  refine ⟨?_, ?_, ?_⟩
  · rw [selectReviewers_length, candidatePool_length]
  · intro hk
    rw [← candidatePool_length] at hk
    rw [selectReviewers_small rnd hk, candidatePool_eq]
  · intro w w' prID prName now pr h
    obtain ⟨author, hu, _, _, hpr, _⟩ := CreatePR_ok h
    refine ⟨author, hu, ?_⟩
    rw [hpr]
    simp only
    rw [selectReviewers_length, candidatePool_length]

/-- C6: for a team with pairwise distinct user ids and draws `idx1 < n`,
`idx2 < n - 1` (`n` the size of the candidate pool), the adjusted second
index differs from the first, and `selectReviewers` returns the candidates at
these two indices, which are two different ids. -/
theorem selectReviewers_distinct (team : Team) (authorID : String) (idx1 idx2 : Nat)
    (rest : List Nat)
    (hids : (team.Members.map (fun m => m.UserID)).Nodup)
    (h1 : idx1 < (candidatePool team authorID).length)
    (h2 : idx2 < (candidatePool team authorID).length - 1) :
    secondIndex idx1 idx2 ≠ idx1 ∧
    ∃ a b, selectReviewers team authorID (idx1 :: idx2 :: rest) = ([a, b], rest) ∧
      (candidatePool team authorID)[idx1]? = some a ∧
      (candidatePool team authorID)[secondIndex idx1 idx2]? = some b ∧ a ≠ b := by
  refine ⟨secondIndex_ne idx1 idx2, ?_⟩
  obtain ⟨a, b, hab, ha, hb⟩ :=
    @selectReviewers_pair team authorID (idx1 :: idx2 :: rest) (by omega)
  rw [Intn_cons_of_lt _ h1] at ha hb
  simp only [] at ha hb
  rw [Intn_cons_of_lt _ h2] at hb
  simp only [] at hb
  refine ⟨a, b, ?_, ha, hb, ?_⟩
  · have hrest : (selectReviewers team authorID (idx1 :: idx2 :: rest)).2 = rest := by
      unfold selectReviewers
      have hn : ¬ (candidatePool team authorID).length ≤ 1 := by omega
      simp only [hn, dite_false, Intn_cons_of_lt _ h1, Intn_cons_of_lt _ h2]
    exact Prod.ext hab hrest
  · intro e
    subst e
    have hnd := candidatePool_nodup authorID hids
    have hlt := secondIndex_lt h1 h2
    rw [List.getElem?_eq_getElem h1] at ha
    rw [List.getElem?_eq_getElem hlt] at hb
    simp only [Option.some.injEq] at ha hb
    have := (List.Nodup.getElem_inj_iff hnd).1 (ha.trans hb.symm)
    exact secondIndex_ne idx1 idx2 this.symm

/-- C7: every id `selectReviewers` returns is the user id of a member of the
team that is active, and is not the author id; when the user ids of the team
are pairwise distinct, the id of an inactive member is not returned. -/
theorem selectReviewers_eligible (team : Team) (authorID : String) (rnd : List Nat) :
    (∀ id ∈ (selectReviewers team authorID rnd).1,
      (∃ m ∈ team.Members, m.UserID = id ∧ m.IsActive = true) ∧ id ≠ authorID) ∧
    authorID ∉ (selectReviewers team authorID rnd).1 ∧
    ((team.Members.map (fun m => m.UserID)).Nodup →
      ∀ m ∈ team.Members, m.IsActive = false → m.UserID ∉ (selectReviewers team authorID rnd).1) := by
  refine ⟨?_, ?_, ?_⟩
  · intro id hid
    obtain ⟨m, hm, hmid, hact, hne⟩ := mem_candidatePool.1 (selectReviewers_subset hid)
    exact ⟨⟨m, hm, hmid, hact⟩, hne⟩
  · intro hid
    obtain ⟨m, _, _, _, hne⟩ := mem_candidatePool.1 (selectReviewers_subset hid)
    exact hne rfl
  · intro hnd m hm hinact hid
    obtain ⟨m2, hm2, hmid, hact, _⟩ := mem_candidatePool.1 (selectReviewers_subset hid)
    have : m2 = m := List.inj_on_of_nodup_map hnd hm2 hm hmid
    subst this
    rw [hinact] at hact
    cases hact

/-! ## Initial selection over all draws; single reassignment -/

/-- Witness of C5: the pool of `exPair` for the author `v2` is `v1` alone and
is returned as it is; the pull request `p1` of `exWorld` has two reviewers. -/
theorem selectReviewers_count_witness :
    (exPair.Members.countP (fun m => decide (m.IsActive = true ∧ m.UserID ≠ "v2")) ≤ 1 ∧
      (selectReviewers exPair "v2" [7, 9]).1 =
        (exPair.Members.filter (fun m => decide (m.IsActive = true ∧ m.UserID ≠ "v2"))).map
          (fun m => m.UserID)) ∧
    (∃ author, findUser (run (World.empty [] [0, 0]) [.CreateTeam exTeam]).users "u1" = some author ∧
      [("u2" : String), "u3"].length =
        min ((teamMembers (run (World.empty [] [0, 0]) [.CreateTeam exTeam]).users
          author.TeamName).countP (fun m => decide (m.IsActive = true ∧ m.UserID ≠ "u1"))) 2) :=
  ⟨⟨by decide, (selectReviewers_count exPair "v2" [7, 9]).2.1 (by decide)⟩,
   (selectReviewers_count exTeam "u1" []).2.2
     (run (World.empty [] [0, 0]) [.CreateTeam exTeam]) exWorld "p1" "n" 5
     ⟨"p1", "n", "u1", "OPEN", ["u2", "u3"], some 5, none⟩ rfl⟩

/-- Witness of C6: in `exTeam` with author `u1` the draws `1, 1` pick the
candidates at indices 1 and 2. -/
theorem selectReviewers_distinct_witness :
    secondIndex 1 1 ≠ 1 ∧
    ∃ a b, selectReviewers exTeam "u1" (1 :: 1 :: []) = ([a, b], []) ∧
      (candidatePool exTeam "u1")[1]? = some a ∧
      (candidatePool exTeam "u1")[secondIndex 1 1]? = some b ∧ a ≠ b :=
  selectReviewers_distinct exTeam "u1" 1 1 [] (by decide) (by decide) (by decide)

/-- Witness of C7: the inactive member `v2` of `exPair` is not selected for
the author `v1`. -/
theorem selectReviewers_eligible_witness :
    "v2" ∉ (selectReviewers exPair "v1" [3, 4]).1 :=
  (selectReviewers_eligible exPair "v1" [3, 4]).2.2 (by decide) ⟨"v2", "b", false⟩ (by decide) rfl

/-- C8 on the code: with a pool of three candidates, three of the six draws
give the indices 0 and 1, two give 1 and 2, and one gives 0 and 2, since line
77 adjusts the second index only when it equals the first; the six draws on
`exTeam` with author `u1` are listed. -/
theorem selectReviewers_not_uniform :
    drawsFor 3 0 1 = 3 ∧ drawsFor 3 1 2 = 2 ∧ drawsFor 3 0 2 = 1 ∧
    ((List.range 3).product (List.range 2)).map
        (fun d => (selectReviewers exTeam "u1" [d.1, d.2]).1) =
      [["u2", "u3"], ["u2", "u3"], ["u3", "u2"], ["u3", "u4"], ["u4", "u2"], ["u4", "u3"]] := by
  decide

/-- C9: when `ReassignReviewer` succeeds, the new reviewer id is the user id
of an active member of the team of the old reviewer, as stored before the
call; it is not the old reviewer, not the author of the pull request, and
was not among its reviewers before the call. -/
theorem ReassignReviewer_new_eligible (w w' : World) (prID old new : String) (pr' : PullRequest)
    (h : ReassignReviewer w prID old = (.ok (pr', new), w')) :
    ∃ pr oldReviewer, findPR w.pull_requests prID = some pr ∧
      findUser w.users old = some oldReviewer ∧
      (∃ m ∈ teamMembers w.users oldReviewer.TeamName, m.UserID = new ∧ m.IsActive = true) ∧
      new ≠ old ∧ new ≠ pr.AuthorID ∧ new ∉ pr.AssignedReviewers := by
  obtain ⟨pr, u, hp, _, _, hu, _, hnew, hne, _⟩ := ReassignReviewer_ok h
  rw [hnew] at hne
  have hmem := selectReplacementReviewer_ne hne
  rw [← hnew] at hmem
  obtain ⟨m, hm, hmid, hact, h1, h2, h3⟩ := mem_replacementPool.1 hmem
  exact ⟨pr, u, hp, hu, ⟨m, hm, hmid, hact⟩, h1, h2, h3⟩

/-- Witness of C9: in `exWorld`, `u2` on `p1` is replaced by `u4`. -/
theorem ReassignReviewer_new_eligible_witness :
    ∃ pr oldReviewer, findPR exWorld.pull_requests "p1" = some pr ∧
      findUser exWorld.users "u2" = some oldReviewer ∧
      (∃ m ∈ teamMembers exWorld.users oldReviewer.TeamName, m.UserID = "u4" ∧ m.IsActive = true) ∧
      "u4" ≠ "u2" ∧ "u4" ≠ pr.AuthorID ∧ "u4" ∉ pr.AssignedReviewers :=
  ReassignReviewer_new_eligible exWorld (ReassignReviewer exWorld "p1" "u2").2 "p1" "u2" "u4"
    ⟨"p1", "n", "u1", "OPEN", ["u4", "u3"], some 5, none⟩ rfl

/-- C10: when `ReassignReviewer` succeeds, the reviewers of the returned pull
request, which are the reviewers stored for it afterwards, are as many as
before the call; a position that held the old reviewer holds the new one,
every other position is as before, and the old reviewer is not among them. -/
theorem ReassignReviewer_sequence (w w' : World) (prID old new : String) (pr' : PullRequest)
    (h : ReassignReviewer w prID old = (.ok (pr', new), w')) :
    ∃ pr, findPR w.pull_requests prID = some pr ∧
      findPR w'.pull_requests prID = some pr' ∧
      pr'.AssignedReviewers.length = pr.AssignedReviewers.length ∧
      (∀ i : Nat, pr.AssignedReviewers[i]? = some old → pr'.AssignedReviewers[i]? = some new) ∧
      (∀ (i : Nat) (x : String), pr.AssignedReviewers[i]? = some x → x ≠ old → pr'.AssignedReviewers[i]? = some x) ∧
      old ∉ pr'.AssignedReviewers := by
  obtain ⟨pr, u, hp, _, _, hu, _, hnew, hne, hpr, hw, _⟩ := ReassignReviewer_ok h
  have hne2 : new ≠ old := by
    rw [hnew] at hne
    have hmem := selectReplacementReviewer_ne hne
    rw [← hnew] at hmem
    obtain ⟨m, _, _, _, h1, _⟩ := mem_replacementPool.1 hmem
    exact h1
  refine ⟨pr, hp, ?_, ?_, ?_, ?_, ?_⟩
  · rw [hw, findPR_map_reviewers, hp, hpr]; rfl
  · rw [hpr]; exact length_replaceReviewer _ _ _
  · intro i hi
    rw [hpr]; simp only [replaceReviewer_eq_map, List.getElem?_map, hi]
    simp
  · intro i x hi hx
    rw [hpr]; simp only [replaceReviewer_eq_map, List.getElem?_map, hi]
    simp [hx]
  · intro hmem
    rw [hpr] at hmem
    rcases mem_replaceReviewer hmem with e | ⟨_, e⟩
    · exact hne2 e.symm
    · exact e rfl

/-- Witness of C10: in `exWorld`, replacing `u2` on `p1` gives `u4, u3`. -/
theorem ReassignReviewer_sequence_witness :
    ∃ pr, findPR exWorld.pull_requests "p1" = some pr ∧
      findPR (ReassignReviewer exWorld "p1" "u2").2.pull_requests "p1" =
        some ⟨"p1", "n", "u1", "OPEN", ["u4", "u3"], some 5, none⟩ ∧
      [("u4" : String), "u3"].length = pr.AssignedReviewers.length ∧
      (∀ i : Nat, pr.AssignedReviewers[i]? = some "u2" → [("u4" : String), "u3"][i]? = some "u4") ∧
      (∀ (i : Nat) (x : String), pr.AssignedReviewers[i]? = some x → x ≠ "u2" → [("u4" : String), "u3"][i]? = some x) ∧
      "u2" ∉ [("u4" : String), "u3"] :=
  ReassignReviewer_sequence exWorld (ReassignReviewer exWorld "p1" "u2").2 "p1" "u2" "u4"
    ⟨"p1", "n", "u1", "OPEN", ["u4", "u3"], some 5, none⟩ rfl

/-! ## Bulk deactivation: the first phase writes nothing -/

theorem GetPR_error {w w1 : World} {prID : String} {e : Err}
    (h : GetPR w prID = (.error e, w1)) : ∃ msg, e = .storage msg := by
  unfold GetPR at h; simp only [] at h
  split at h
  · cases h; exact ⟨_, rfl⟩
  · cases h

theorem GetUser_error {w w1 : World} {userID : String} {e : Err}
    (h : GetUser w userID = (.error e, w1)) : ∃ msg, e = .storage msg := by
  unfold GetUser queryUser at h
  split at h
  · cases h; exact ⟨_, rfl⟩
  · cases h

theorem GetPRsByReviewer_error {w w1 : World} {userID : String} {e : Err}
    (h : GetPRsByReviewer w userID = (.error e, w1)) : ∃ msg, e = .storage msg := by
  unfold GetPRsByReviewer at h; simp only [] at h
  split at h
  · cases h; exact ⟨_, rfl⟩
  · cases h

theorem UpdateUserActivity_error {w w1 : World} {userID : String} {b : Bool} {e : Err}
    (h : UpdateUserActivity w userID b = (.error e, w1)) : ∃ msg, e = .storage msg := by
  unfold UpdateUserActivity queryUser at h; simp only [] at h
  split at h
  · cases h; exact ⟨_, rfl⟩
  · split at h
    · cases h; exact ⟨_, rfl⟩
    · cases h

theorem selectReplacementReviewerForBulk_quiet (w : World) (prID oldUserID teamName : String) :
    Quiet w (selectReplacementReviewerForBulk w prID oldUserID teamName).2 := by
  unfold selectReplacementReviewerForBulk
  split
  · rename_i h; exact GetPR_quiet h
  · rename_i h; exact GetPR_quiet h
  · rename_i h1
    split
    · rename_i h; exact (GetPR_quiet h1).trans (GetTeam_quiet h)
    · rename_i h; exact (GetPR_quiet h1).trans (GetTeam_quiet h)
    · rename_i h; exact quiet_rand _ ((GetPR_quiet h1).trans (GetTeam_quiet h))

theorem bulkCheckPRs_quiet (userID teamName : String) (prs : List PullRequestShort) (w : World) :
    Quiet w (bulkCheckPRs userID teamName prs w).2 := by
  induction prs generalizing w with
  | nil => exact Quiet.refl w
  | cons pr rest ih =>
    unfold bulkCheckPRs
    split
    · have q := selectReplacementReviewerForBulk_quiet w pr.PullRequestID userID teamName
      split
      rename_i nr w1 h
      rw [h] at q
      split
      · exact q
      · exact q.trans (ih w1)
    · exact ih w

theorem bulkCheck_quiet (userIDs : List String) (w : World) :
    Quiet w (bulkCheck userIDs w).2 := by
  induction userIDs generalizing w with
  | nil => exact Quiet.refl w
  | cons userID rest ih =>
    unfold bulkCheck
    split
    · rename_i h; exact GetUser_quiet h
    · rename_i h; exact GetUser_quiet h
    · rename_i user w1 h1
      split
      · rename_i h; exact (GetUser_quiet h1).trans (GetPRsByReviewer_quiet h)
      · rename_i prs w2 h2
        have q := bulkCheckPRs_quiet userID user.TeamName prs w2
        split
        · rename_i e w3 h3
          rw [h3] at q
          exact ((GetUser_quiet h1).trans (GetPRsByReviewer_quiet h2)).trans q
        · rename_i w3 h3
          rw [h3] at q
          exact (((GetUser_quiet h1).trans (GetPRsByReviewer_quiet h2)).trans q).trans (ih w3)

/-- An error of the second phase is an error of the repository, or the panic. -/
theorem bulkApplyPRs_error (userID : String) (user : Option User) (prs : List PullRequestShort)
    (w : World) (e : Err) (h : (bulkApplyPRs userID user prs w).1 = some e) :
    (∃ msg, e = .storage msg) ∨ e = .nilDeref := by
  induction prs generalizing w with
  | nil => simp [bulkApplyPRs] at h
  | cons pr rest ih =>
    unfold bulkApplyPRs at h
    split at h
    · split at h
      · rename_i h1
        simp only [Option.some.injEq] at h
        subst h
        exact Or.inl (GetPR_error h1)
      · exact ih _ h
      · split at h
        · simp only [Option.some.injEq] at h
          exact Or.inr h.symm
        · split at h
          split at h
          · split at h
            · rename_i h4
              simp only [Option.some.injEq] at h
              subst h
              exact Or.inl (UpdatePRReviewers_error h4).2.2.2
            · exact ih _ h
          · exact ih _ h
    · exact ih _ h

theorem bulkApply_error (userIDs deactivated : List String) (w : World) (e : Err)
    (h : (bulkApply userIDs deactivated w).1.2 = some e) :
    (∃ msg, e = .storage msg) ∨ e = .nilDeref := by
  induction userIDs generalizing w deactivated with
  | nil => simp [bulkApply] at h
  | cons userID rest ih =>
    unfold bulkApply at h
    split at h
    · rename_i h1
      simp only [Option.some.injEq] at h
      subst h
      exact Or.inl (GetUser_error h1)
    · split at h
      · rename_i h2
        simp only [Option.some.injEq] at h
        subst h
        exact Or.inl (GetPRsByReviewer_error h2)
      · split at h
        · rename_i e2 w3 h3
          simp only [Option.some.injEq] at h
          subst h
          exact bulkApplyPRs_error _ _ _ _ _ (by rw [h3])
        · split at h
          · rename_i h4
            simp only [Option.some.injEq] at h
            subst h
            exact Or.inl (UpdateUserActivity_error h4)
          · exact ih _ _ h

/-- C2: when `BulkDeactivateUsers` returns `ErrBulkDeactivateFailed` or
`ErrNotFound`, no writing repository method was called, the three tables are
as before the call, and the returned slice is `nil`. -/
theorem BulkDeactivateUsers_atomic (w w' : World) (userIDs : List String)
    (d : Option (List String)) (e : Err)
    (h : BulkDeactivateUsers w userIDs = ((d, some e), w'))
    (he : e = .ErrBulkDeactivateFailed ∨ e = .ErrNotFound) :
    w'.writes = w.writes ∧ w'.users = w.users ∧ w'.pull_requests = w.pull_requests ∧
      w'.teams = w.teams ∧ d = none := by
  unfold BulkDeactivateUsers at h
  split at h
  · rename_i e1 w1 h1
    have q := bulkCheck_quiet userIDs w
    rw [h1] at q
    simp only [Prod.mk.injEq, Option.some.injEq] at h
    obtain ⟨⟨hd, _⟩, hw⟩ := h
    subst hw
    exact ⟨q.2.2.2, q.2.1, q.2.2.1, q.1, hd.symm⟩
  · rename_i w1 h1
    split at h
    rename_i dd ee w2 h2
    simp only [Prod.mk.injEq] at h
    obtain ⟨⟨_, hee⟩, _⟩ := h
    have := bulkApply_error userIDs [] w1 e (by rw [h2]; exact hee)
    rcases this with ⟨msg, hm⟩ | hm <;> rcases he with he | he <;> rw [he] at hm <;> cases hm

/-- Witness of C2: in `exDuoWorld` the only reviewer `d2` of `q1` has no
replacement, and the call fails in its first phase. -/
theorem BulkDeactivateUsers_atomic_witness :
    (BulkDeactivateUsers exDuoWorld ["d2"]).2.writes = exDuoWorld.writes ∧
      (BulkDeactivateUsers exDuoWorld ["d2"]).2.users = exDuoWorld.users ∧
      (BulkDeactivateUsers exDuoWorld ["d2"]).2.pull_requests = exDuoWorld.pull_requests ∧
      (BulkDeactivateUsers exDuoWorld ["d2"]).2.teams = exDuoWorld.teams ∧
      (none : Option (List String)) = none :=
  BulkDeactivateUsers_atomic exDuoWorld (BulkDeactivateUsers exDuoWorld ["d2"]).2 ["d2"] none
    .ErrBulkDeactivateFailed rfl (Or.inl rfl)

/-! ## Bulk deactivation on an empty replacement pool -/

/-- C1 on the code: in `exWorld` (reached from the empty database) the call
for `u2, u3` succeeds and both users are inactive afterwards, but the OPEN
pull request `p1` still names `u3`: `u2` was replaced by `u4`, after which
no replacement was left for `u3` and lines 255-261 skipped the pull request. -/
theorem BulkDeactivateUsers_keeps_reviewer :
    (BulkDeactivateUsers exWorld ["u2", "u3"]).1 = (some ["u2", "u3"], none) ∧
    (findUser (BulkDeactivateUsers exWorld ["u2", "u3"]).2.users "u2").map (fun u => u.IsActive)
      = some false ∧
    (findUser (BulkDeactivateUsers exWorld ["u2", "u3"]).2.users "u3").map (fun u => u.IsActive)
      = some false ∧
    (BulkDeactivateUsers exWorld ["u2", "u3"]).2.pull_requests =
      [⟨"p1", "n", "u1", StatusOpen, ["u4", "u3"], some 5, none⟩] := by
  decide

/-- C3 on the code: in `exWorld` the first phase passes for `u2, u4`; once
`u2` is processed the replacement pool of `u4` on `p1` is empty, and the call
goes on: it deactivates `u4`, leaves `u4` on the OPEN pull request and
returns both users with no error. -/
theorem BulkDeactivateUsers_empty_pool_no_error :
    (bulkCheck ["u2", "u4"] exWorld).1 = none ∧
    (BulkDeactivateUsers exWorld ["u2"]).1 = (some ["u2"], none) ∧
    (BulkDeactivateUsers exWorld ["u2"]).2.pull_requests =
      [⟨"p1", "n", "u1", StatusOpen, ["u4", "u3"], some 5, none⟩] ∧
    replacementPool ⟨"T", teamMembers (BulkDeactivateUsers exWorld ["u2"]).2.users "T"⟩
      "u4" "u1" ["u4", "u3"] = [] ∧
    (BulkDeactivateUsers exWorld ["u2", "u4"]).1 = (some ["u2", "u4"], none) ∧
    (findUser (BulkDeactivateUsers exWorld ["u2", "u4"]).2.users "u4").map (fun u => u.IsActive)
      = some false ∧
    (BulkDeactivateUsers exWorld ["u2", "u4"]).2.pull_requests =
      [⟨"p1", "n", "u1", StatusOpen, ["u4", "u3"], some 5, none⟩] := by
  decide

/-! ## The invariant of the tables -/

theorem Inv.of_tables {w w1 : World} (h : Inv w) (hu : w1.users = w.users)
    (hp : w1.pull_requests = w.pull_requests) : Inv w1 := by
  unfold Inv Keyed at *
  rw [hu, hp]; exact h

theorem Quiet.inv {w w1 : World} (q : Quiet w w1) (h : Inv w) : Inv w1 :=
  h.of_tables q.2.1 q.2.2.1

theorem Inv_empty (faults : List (Option String)) (rand : List Nat) :
    Inv (World.empty faults rand) := by
  unfold Inv Keyed World.empty
  simp

theorem upsertUser_ids (users : List User) (teamName : String) (member : TeamMember)
    (h : (users.map (fun u => u.UserID)).Nodup) :
    ((upsertUser users teamName member).map (fun u => u.UserID)).Nodup := by
  unfold upsertUser
  split
  · rw [List.map_map]
    have : ((fun u : User => u.UserID) ∘ fun u : User =>
        if (u.UserID == member.UserID) = true then
          { u with Username := member.Username, TeamName := teamName, IsActive := member.IsActive }
        else u) = fun u => u.UserID := by
      funext u
      simp only [Function.comp]
      split <;> rfl
    rw [this]; exact h
  · rename_i hany
    rw [List.map_append, List.nodup_append]
    refine ⟨h, by simp, ?_⟩
    intro a ha hb
    simp only [List.map_cons, List.map_nil, List.mem_singleton] at hb
    subst hb
    apply hany
    rw [List.mem_map] at ha
    obtain ⟨u, hu, hue⟩ := ha
    rw [List.any_eq_true]
    exact ⟨u, hu, by simpa using hue⟩

theorem insertMembers_ids (teamName : String) (members : List TeamMember) (users : List User)
    (w w1 : World) (r : List User)
    (h : (users.map (fun u => u.UserID)).Nodup)
    (hr : insertMembers teamName members users w = (.ok r, w1)) :
    (r.map (fun u => u.UserID)).Nodup := by
  induction members generalizing users w with
  | nil =>
    unfold insertMembers at hr
    cases hr; exact h
  | cons m rest ih =>
    unfold insertMembers at hr
    split at hr
    · cases hr
    · exact ih _ _ (upsertUser_ids users teamName m h) hr

theorem insertMembers_tables (teamName : String) (members : List TeamMember) (users : List User)
    (w : World) :
    (insertMembers teamName members users w).2.users = w.users ∧
      (insertMembers teamName members users w).2.pull_requests = w.pull_requests ∧
      (insertMembers teamName members users w).2.teams = w.teams := by
  induction members generalizing users w with
  | nil => exact ⟨rfl, rfl, rfl⟩
  | cons m rest ih =>
    unfold insertMembers
    split
    · exact ⟨rfl, rfl, rfl⟩
    · exact ih _ w.next

theorem repoCreateTeam_inv {w : World} (team : Team) (h : Inv w) :
    Inv (PostgresRepository.CreateTeam w team).2 := by
  unfold PostgresRepository.CreateTeam
  simp only []
  split
  · exact h
  · split
    · exact h
    · have ht := insertMembers_tables team.TeamName team.Members
        (w.logCall .CreateTeam).next.next.users (w.logCall .CreateTeam).next.next
      split
      · rename_i e w1 hi
        rw [hi] at ht
        exact h.of_tables ht.1 ht.2.1
      · rename_i us w1 hi
        have hk := insertMembers_ids _ _ _ _ _ _ h.1.1 hi
        rw [hi] at ht
        split
        · exact h.of_tables ht.1 ht.2.1
        · refine ⟨⟨hk, ?_⟩, ?_⟩
          · show (w1.pull_requests.map _).Nodup
            rw [show w1.pull_requests = w.pull_requests from ht.2.1]; exact h.1.2
          · show ∀ p ∈ w1.pull_requests, ReviewersOK p
            rw [show w1.pull_requests = w.pull_requests from ht.2.1]; exact h.2

theorem map_activity_ids (users : List User) (userID : String) (b : Bool) :
    (users.map (fun u => if u.UserID == userID then { u with IsActive := b } else u)).map
      (fun u => u.UserID) = users.map (fun u => u.UserID) := by
  rw [List.map_map]
  congr 1
  funext u
  simp only [Function.comp]
  split <;> rfl

theorem UpdateUserActivity_inv {w : World} (userID : String) (b : Bool) (h : Inv w) :
    Inv (UpdateUserActivity w userID b).2 := by
  unfold UpdateUserActivity queryUser
  simp only []
  split
  · exact h
  · split
    · refine ⟨⟨?_, h.1.2⟩, h.2⟩
      show ((w.users.map _).map _).Nodup
      rw [map_activity_ids]; exact h.1.1
    · refine ⟨⟨?_, h.1.2⟩, h.2⟩
      show ((w.users.map _).map _).Nodup
      rw [map_activity_ids]; exact h.1.1

theorem UpdatePRStatus_inv {w : World} (prID : String) (st : PullRequestStatus) (t : Option Nat)
    (h : Inv w) : Inv (UpdatePRStatus w prID st t).2 := by
  unfold UpdatePRStatus
  simp only []
  split
  · exact h
  · refine ⟨⟨h.1.1, ?_⟩, ?_⟩
    · show ((w.pull_requests.map _).map _).Nodup
      rw [List.map_map]
      have : ((fun p : PullRequest => p.PullRequestID) ∘ fun p : PullRequest =>
          if (p.PullRequestID == prID) = true then { p with Status := st, MergedAt := t } else p)
          = fun p => p.PullRequestID := by
        funext p; simp only [Function.comp]; split <;> rfl
      rw [this]; exact h.1.2
    · show ∀ p ∈ w.pull_requests.map _, ReviewersOK p
      intro p hp
      rw [List.mem_map] at hp
      obtain ⟨p0, hp0, rfl⟩ := hp
      have := h.2 p0 hp0
      split
      · exact this
      · exact this

theorem teamMembers_ids (users : List User) (teamName : String)
    (h : (users.map (fun u => u.UserID)).Nodup) :
    ((teamMembers users teamName).map (fun m => m.UserID)).Nodup := by
  unfold teamMembers
  rw [List.map_map]
  have hf : ((fun m : TeamMember => m.UserID) ∘ fun u : User =>
      ({ UserID := u.UserID, Username := u.Username, IsActive := u.IsActive } : TeamMember))
      = fun u => u.UserID := rfl
  rw [hf]
  have hperm := List.perm_insertionSort (fun a b : User => userIDLe a.UserID b.UserID = true)
    (users.filter (fun u => u.TeamName == teamName))
  rw [(hperm.map _).nodup_iff]
  exact h.sublist ((List.filter_sublist _).map _)

theorem getElem?_ne_of_nodup {l : List String} {i j : Nat} {a b : String} (hl : l.Nodup)
    (ha : l[i]? = some a) (hb : l[j]? = some b) (hij : i ≠ j) : a ≠ b := by
  intro e
  subst e
  obtain ⟨hi, hai⟩ := List.getElem?_eq_some.1 ha
  obtain ⟨hj, hbj⟩ := List.getElem?_eq_some.1 hb
  exact hij ((List.Nodup.getElem_inj_iff hl).1 (hai.trans hbj.symm))

theorem selectReviewers_nodup {team : Team} (authorID : String) (rnd : List Nat)
    (h : (team.Members.map (fun m => m.UserID)).Nodup) :
    (selectReviewers team authorID rnd).1.Nodup := by
  by_cases hs : (candidatePool team authorID).length ≤ 1
  · rw [selectReviewers_small rnd hs]; exact candidatePool_nodup authorID h
  · obtain ⟨a, b, hab, ha, hb⟩ :=
      @selectReviewers_pair team authorID rnd (by omega)
    rw [hab]
    have := getElem?_ne_of_nodup (candidatePool_nodup authorID h) ha hb
      (fun e => secondIndex_ne _ _ e.symm)
    simp [this]

theorem not_mem_ids_of_any_false {prs : List PullRequest} {prID : String}
    (h : prs.any (fun p => p.PullRequestID == prID) = false) :
    prID ∉ prs.map (fun p => p.PullRequestID) := by
  intro hm
  rw [List.mem_map] at hm
  obtain ⟨p, hp, he⟩ := hm
  have : prs.any (fun p => p.PullRequestID == prID) = true :=
    List.any_eq_true.2 ⟨p, hp, by simpa using he⟩
  rw [h] at this; cases this

theorem CreatePR_error_tables {w w' : World} {prID prName authorID : String} {now : Nat} {e : Err}
    (h : Service.CreatePR w prID prName authorID now = (.error e, w')) :
    w'.users = w.users ∧ w'.pull_requests = w.pull_requests := by
  unfold Service.CreatePR at h
  split at h
  · rename_i h1; cases h; have q := PRExists_quiet h1; exact ⟨q.2.1, q.2.2.1⟩
  · rename_i found w1 h1
    have q1 := PRExists_quiet h1
    split at h
    · cases h; exact ⟨q1.2.1, q1.2.2.1⟩
    · split at h
      · rename_i h2; cases h; have q := q1.trans (GetUser_quiet h2); exact ⟨q.2.1, q.2.2.1⟩
      · rename_i h2; cases h; have q := q1.trans (GetUser_quiet h2); exact ⟨q.2.1, q.2.2.1⟩
      · rename_i author w2 h2
        have q2 := q1.trans (GetUser_quiet h2)
        split at h
        · rename_i h3; cases h; have q := q2.trans (GetTeam_quiet h3); exact ⟨q.2.1, q.2.2.1⟩
        · rename_i h3; cases h; have q := q2.trans (GetTeam_quiet h3); exact ⟨q.2.1, q.2.2.1⟩
        · rename_i team w3 h3
          have q3 := q2.trans (GetTeam_quiet h3)
          simp only at h
          split at h
          · rename_i e4 w4 h4
            obtain ⟨_, c2, c3⟩ := repoCreatePR_error h4
            simp only [Prod.mk.injEq] at h
            obtain ⟨_, hw⟩ := h
            subst hw
            exact ⟨c2.trans q3.2.1, c3.trans q3.2.2.1⟩
          · cases h

theorem CreatePR_inv {w : World} (prID prName authorID : String) (now : Nat) (h : Inv w) :
    Inv (Service.CreatePR w prID prName authorID now).2 := by
  rcases hres : Service.CreatePR w prID prName authorID now with ⟨r, w'⟩
  cases r with
  | error e =>
    obtain ⟨a, b⟩ := CreatePR_error_tables hres
    exact h.of_tables a b
  | ok pr =>
    obtain ⟨author, hu, hne, hfresh, hpr, hprs, hus, _⟩ := CreatePR_ok hres
    have hids := teamMembers_ids w.users author.TeamName h.1.1
    have hid : pr.PullRequestID = prID := by rw [hpr]
    have hau : pr.AuthorID = authorID := by rw [hpr]
    have hrev : pr.AssignedReviewers =
        (selectReviewers ⟨author.TeamName, teamMembers w.users author.TeamName⟩ authorID w.rand).1 := by
      rw [hpr]
    refine ⟨⟨?_, ?_⟩, ?_⟩
    · show (w'.users.map _).Nodup
      rw [hus]; exact h.1.1
    · show (w'.pull_requests.map _).Nodup
      rw [hprs, List.map_append, List.nodup_append]
      refine ⟨h.1.2, by simp, ?_⟩
      intro a ha hb
      simp only [List.map_cons, List.map_nil, List.mem_singleton] at hb
      rw [hb, hid] at ha
      exact not_mem_ids_of_any_false hfresh ha
    · show ∀ p ∈ w'.pull_requests, ReviewersOK p
      rw [hprs]
      intro p hp
      rw [List.mem_append, List.mem_singleton] at hp
      rcases hp with hp | hp
      · exact h.2 p hp
      · subst hp
        refine ⟨?_, ?_, ?_⟩
        · rw [hrev, selectReviewers_length]; omega
        · rw [hrev]; exact selectReviewers_nodup authorID w.rand hids
        · rw [hrev, hau]
          intro hm
          obtain ⟨m, _, _, _, hn⟩ := mem_candidatePool.1 (selectReviewers_subset hm)
          exact hn rfl

theorem findPR_some_mem {prs : List PullRequest} {prID : String} {pr : PullRequest}
    (h : findPR prs prID = some pr) : pr ∈ prs ∧ pr.PullRequestID = prID := by
  unfold findPR at h
  exact ⟨List.mem_of_find?_eq_some h, by simpa using List.find?_some h⟩

theorem Inv_replace {w w1 : World} {prID oldID newID : String} {pr : PullRequest}
    (hI : Inv w) (hp : findPR w.pull_requests prID = some pr)
    (hn : newID ∉ pr.AssignedReviewers) (ha : newID ≠ pr.AuthorID)
    (hu : w1.users = w.users)
    (hprs : w1.pull_requests = w.pull_requests.map (fun p =>
      if p.PullRequestID == prID then
        { p with AssignedReviewers := replaceReviewer pr.AssignedReviewers oldID newID } else p)) :
    Inv w1 := by
  obtain ⟨hmem, hid⟩ := findPR_some_mem hp
  refine ⟨⟨?_, ?_⟩, ?_⟩
  · rw [hu]; exact hI.1.1
  · rw [hprs, List.map_map]
    have : ((fun p : PullRequest => p.PullRequestID) ∘ fun p : PullRequest =>
        if (p.PullRequestID == prID) = true then
          { p with AssignedReviewers := replaceReviewer pr.AssignedReviewers oldID newID } else p)
        = fun p => p.PullRequestID := by
      funext p; simp only [Function.comp]; split <;> rfl
    rw [this]; exact hI.1.2
  · rw [hprs]
    intro p hpm
    rw [List.mem_map] at hpm
    obtain ⟨p0, hp0, rfl⟩ := hpm
    split
    · rename_i hc
      have hid0 : p0.PullRequestID = pr.PullRequestID := by
        rw [hid]; simpa using hc
      have : p0 = pr := List.inj_on_of_nodup_map hI.1.2 hp0 hmem hid0
      subst this
      obtain ⟨h1, h2, h3⟩ := hI.2 p0 hp0
      refine ⟨?_, ?_, ?_⟩
      · show (replaceReviewer _ _ _).length ≤ 2
        rw [length_replaceReviewer]; exact h1
      · exact replaceReviewer_nodup h2 hn
      · show p0.AuthorID ∉ replaceReviewer _ _ _
        intro hm
        rcases mem_replaceReviewer hm with e | ⟨e, _⟩
        · exact ha e.symm
        · exact h3 e
    · exact hI.2 p0 hp0

theorem ReassignReviewer_error_tables {w w' : World} {prID old : String} {e : Err}
    (h : ReassignReviewer w prID old = (.error e, w')) :
    w'.users = w.users ∧ w'.pull_requests = w.pull_requests := by
  unfold ReassignReviewer at h
  split at h
  · rename_i h1; cases h; have q := GetPR_quiet h1; exact ⟨q.2.1, q.2.2.1⟩
  · rename_i h1; cases h; have q := GetPR_quiet h1; exact ⟨q.2.1, q.2.2.1⟩
  · rename_i pr w1 h1
    have q1 := GetPR_quiet h1
    split at h
    · cases h; exact ⟨q1.2.1, q1.2.2.1⟩
    · split at h
      · cases h; exact ⟨q1.2.1, q1.2.2.1⟩
      · split at h
        · rename_i h2; cases h; have q := q1.trans (GetUser_quiet h2); exact ⟨q.2.1, q.2.2.1⟩
        · rename_i h2; cases h; have q := q1.trans (GetUser_quiet h2); exact ⟨q.2.1, q.2.2.1⟩
        · rename_i u w2 h2
          have q2 := q1.trans (GetUser_quiet h2)
          split at h
          · rename_i h3; cases h; have q := q2.trans (GetTeam_quiet h3); exact ⟨q.2.1, q.2.2.1⟩
          · rename_i h3; cases h; have q := q2.trans (GetTeam_quiet h3); exact ⟨q.2.1, q.2.2.1⟩
          · rename_i team w3 h3
            have q3 := q2.trans (GetTeam_quiet h3)
            simp only at h
            split at h
            · cases h; exact ⟨q3.2.1, q3.2.2.1⟩
            · split at h
              · rename_i e4 w4 h4
                obtain ⟨_, c2, c3, _⟩ := UpdatePRReviewers_error h4
                simp only [Prod.mk.injEq] at h
                obtain ⟨_, hw⟩ := h
                subst hw
                exact ⟨c2.trans q3.2.1, c3.trans q3.2.2.1⟩
              · cases h

theorem ReassignReviewer_inv {w : World} (prID old : String) (h : Inv w) :
    Inv (ReassignReviewer w prID old).2 := by
  rcases hres : ReassignReviewer w prID old with ⟨r, w'⟩
  cases r with
  | error e =>
    obtain ⟨a, b⟩ := ReassignReviewer_error_tables hres
    exact h.of_tables a b
  | ok res =>
    obtain ⟨pr', new⟩ := res
    obtain ⟨pr, u, hp, _, _, _, _, hnew, hne, _, hprs, hus, _⟩ := ReassignReviewer_ok hres
    rw [hnew] at hne
    have hmem := selectReplacementReviewer_ne hne
    rw [← hnew] at hmem
    obtain ⟨m, _, _, _, _, h2, h3⟩ := mem_replacementPool.1 hmem
    exact Inv_replace h hp h3 h2 hus hprs

theorem MergePR_inv {w : World} (prID : String) (now : Nat) (h : Inv w) :
    Inv (MergePR w prID now).2 := by
  unfold MergePR
  split
  · rename_i h1; exact (GetPR_quiet h1).inv h
  · rename_i h1; exact (GetPR_quiet h1).inv h
  · rename_i pr w1 h1
    have i1 := (GetPR_quiet h1).inv h
    split
    · exact i1
    · have i2 := UpdatePRStatus_inv prID StatusMerged (some now) i1
      split
      · rename_i h2; rw [h2] at i2; exact i2
      · rename_i h2; rw [h2] at i2; exact i2

theorem SetUserActivity_inv {w : World} (userID : String) (b : Bool) (h : Inv w) :
    Inv (SetUserActivity w userID b).2 := by
  unfold SetUserActivity
  split
  · rename_i h1; exact (GetUser_quiet h1).inv h
  · rename_i h1; exact (GetUser_quiet h1).inv h
  · rename_i h1; exact UpdateUserActivity_inv userID b ((GetUser_quiet h1).inv h)

theorem CreateTeam_inv {w : World} (team : Team) (h : Inv w) :
    Inv (Service.CreateTeam w team).2 := by
  unfold Service.CreateTeam
  split
  · rename_i h1; exact (TeamExists_quiet h1).inv h
  · rename_i h1
    split
    · exact (TeamExists_quiet h1).inv h
    · exact repoCreateTeam_inv team ((TeamExists_quiet h1).inv h)

/-- A replacement the bulk path finds is outside the reviewers and is not the
author of the stored pull request. -/
theorem selectReplacementReviewerForBulk_ne {w : World} {prID oldUserID teamName : String}
    (h : (selectReplacementReviewerForBulk w prID oldUserID teamName).1 ≠ "") :
    ∃ pr, findPR w.pull_requests prID = some pr ∧
      (selectReplacementReviewerForBulk w prID oldUserID teamName).1 ∉ pr.AssignedReviewers ∧
      (selectReplacementReviewerForBulk w prID oldUserID teamName).1 ≠ pr.AuthorID := by
  unfold selectReplacementReviewerForBulk at h ⊢
  split at h
  · exact absurd rfl h
  · exact absurd rfl h
  · rename_i pr w1 h1
    split at h
    · exact absurd rfl h
    · exact absurd rfl h
    · rename_i team w2 h2
      simp only [h1, h2] at h ⊢
      have hmem := selectReplacementReviewer_ne h
      obtain ⟨m, _, _, _, _, a2, a3⟩ := mem_replacementPool.1 hmem
      exact ⟨pr, (GetPR_ok h1).symm, a3, a2⟩

theorem bulkApplyPRs_inv (userID : String) (user : Option User) (prs : List PullRequestShort)
    (w : World) (h : Inv w) : Inv (bulkApplyPRs userID user prs w).2 := by
  induction prs generalizing w with
  | nil => exact h
  | cons pr rest ih =>
    unfold bulkApplyPRs
    split
    · split
      · rename_i h1; exact (GetPR_quiet h1).inv h
      · rename_i h1; exact ih _ ((GetPR_quiet h1).inv h)
      · rename_i fullPR w1 h1
        have q1 := GetPR_quiet h1
        have i1 := q1.inv h
        split
        · exact i1
        · rename_i u
          have q2 := selectReplacementReviewerForBulk_quiet w1 pr.PullRequestID userID u.TeamName
          split
          rename_i nr w2 h2
          have hfst : (selectReplacementReviewerForBulk w1 pr.PullRequestID userID u.TeamName).1 = nr := by
            rw [h2]
          rw [h2] at q2
          simp only at q2
          have i2 := q2.inv i1
          split
          · rename_i hne
            have i3 : ∀ r w3, UpdatePRReviewers w2 pr.PullRequestID
                (replaceReviewer fullPR.AssignedReviewers userID nr) = (r, w3) → Inv w3 := by
              intro r w3 h3
              cases r with
              | error e =>
                obtain ⟨_, c2, c3, _⟩ := UpdatePRReviewers_error h3
                exact i2.of_tables c2 c3
              | ok x =>
                obtain ⟨_, c2, c3⟩ := UpdatePRReviewers_ok h3
                rw [← hfst] at hne
                obtain ⟨pr2, hp2, a3, a2⟩ := selectReplacementReviewerForBulk_ne hne
                rw [hfst] at a3 a2
                have hfull : findPR w1.pull_requests pr.PullRequestID = some fullPR := by
                  rw [q1.2.2.1]; exact (GetPR_ok h1).symm
                rw [hp2] at hfull
                simp only [Option.some.injEq] at hfull
                subst hfull
                rw [← q2.2.2.1] at hp2
                exact Inv_replace i2 hp2 a3 a2 c2 c3
            split
            · rename_i h3; exact i3 _ _ h3
            · rename_i h3; exact ih _ (i3 _ _ h3)
          · exact ih _ i2
    · exact ih _ h

theorem bulkApply_inv (userIDs deactivated : List String) (w : World) (h : Inv w) :
    Inv (bulkApply userIDs deactivated w).2 := by
  induction userIDs generalizing w deactivated with
  | nil => exact h
  | cons userID rest ih =>
    unfold bulkApply
    split
    · rename_i h1; exact (GetUser_quiet h1).inv h
    · rename_i user w1 h1
      have i1 := (GetUser_quiet h1).inv h
      split
      · rename_i h2; exact (GetPRsByReviewer_quiet h2).inv i1
      · rename_i prs w2 h2
        have i2 := (GetPRsByReviewer_quiet h2).inv i1
        have i3 := bulkApplyPRs_inv userID user prs w2 i2
        split
        · rename_i h3; rw [h3] at i3; exact i3
        · rename_i w3 h3
          rw [h3] at i3
          have i4 := UpdateUserActivity_inv userID false i3
          split
          · rename_i h4; rw [h4] at i4; exact i4
          · rename_i h4; rw [h4] at i4; exact ih _ _ i4

theorem BulkDeactivateUsers_inv {w : World} (userIDs : List String) (h : Inv w) :
    Inv (BulkDeactivateUsers w userIDs).2 := by
  unfold BulkDeactivateUsers
  have q := bulkCheck_quiet userIDs w
  split
  · rename_i h1; rw [h1] at q; exact q.inv h
  · rename_i w1 h1
    rw [h1] at q
    have i2 := bulkApply_inv userIDs [] w1 (q.inv h)
    split
    rename_i h2
    rw [h2] at i2
    exact i2

theorem step_inv {w : World} (c : Call) (h : Inv w) : Inv (step w c) := by
  cases c with
  | CreateTeam team => exact CreateTeam_inv team h
  | CreatePR prID prName authorID now => exact CreatePR_inv prID prName authorID now h
  | MergePR prID now => exact MergePR_inv prID now h
  | ReassignReviewer prID old => exact ReassignReviewer_inv prID old h
  | SetUserActivity userID b => exact SetUserActivity_inv userID b h
  | BulkDeactivateUsers userIDs => exact BulkDeactivateUsers_inv userIDs h

theorem run_inv (calls : List Call) {w : World} (h : Inv w) : Inv (run w calls) := by
  induction calls generalizing w with
  | nil => exact h
  | cons c rest ih => exact ih (step_inv c h)

/-- C4: after any sequence of engine calls run one after the other from the
empty database, whatever the random draws and the storage failures, every
pull request with status OPEN has at most two reviewers, no reviewer twice,
and not its author among them. -/
theorem reachable_open_reviewers (faults : List (Option String)) (rand : List Nat)
    (calls : List Call) (p : PullRequest)
    (hp : p ∈ (run (World.empty faults rand) calls).pull_requests)
    (_hopen : p.Status = StatusOpen) :
    p.AssignedReviewers.length ≤ 2 ∧ p.AssignedReviewers.Nodup ∧
      p.AuthorID ∉ p.AssignedReviewers :=
  (run_inv calls (Inv_empty faults rand)).2 p hp

/-- Witness of C4: the pull request `p1` of `exWorld` after `u2` is replaced. -/
theorem reachable_open_reviewers_witness :
    [("u4" : String), "u3"].length ≤ 2 ∧ [("u4" : String), "u3"].Nodup ∧
      "u1" ∉ [("u4" : String), "u3"] :=
  reachable_open_reviewers [] [0, 0]
    [.CreateTeam exTeam, .CreatePR "p1" "n" "u1" 5, .ReassignReviewer "p1" "u2"]
    ⟨"p1", "n", "u1", "OPEN", ["u4", "u3"], some 5, none⟩ (by decide) rfl

/-! ## Bulk deactivation: the listed users are inactive after a success -/

theorem bulkApplyPRs_users (userID : String) (user : Option User) (prs : List PullRequestShort)
    (w : World) : (bulkApplyPRs userID user prs w).2.users = w.users := by
  induction prs generalizing w with
  | nil => rfl
  | cons pr rest ih =>
    unfold bulkApplyPRs
    split
    · split
      · rename_i h1; exact (GetPR_quiet h1).2.1
      · rename_i h1; exact (ih _).trans (GetPR_quiet h1).2.1
      · rename_i fullPR w1 h1
        have q1 := GetPR_quiet h1
        split
        · exact q1.2.1
        · rename_i u
          have q2 := selectReplacementReviewerForBulk_quiet w1 pr.PullRequestID userID u.TeamName
          split
          rename_i nr w2 h2
          rw [h2] at q2
          simp only at q2
          split
          · split
            · rename_i h3
              exact ((UpdatePRReviewers_error h3).2.1.trans q2.2.1).trans q1.2.1
            · rename_i h3
              exact (((ih _).trans (UpdatePRReviewers_ok h3).2.1).trans q2.2.1).trans q1.2.1
          · exact ((ih _).trans q2.2.1).trans q1.2.1
    · exact ih w

theorem UpdateUserActivity_users_ok {w w1 : World} {userID : String} {b : Bool}
    {r : Option User} (h : UpdateUserActivity w userID b = (.ok r, w1)) :
    w1.users = w.users.map (fun u => if u.UserID == userID then { u with IsActive := b } else u) := by
  unfold UpdateUserActivity queryUser at h
  simp only [] at h
  split at h
  · cases h
  · split at h
    · cases h
    · cases h; rfl

/-- Every row of `users` with one of the ids `ids` is inactive. -/
theorem bulkApply_inactive (userIDs deactivated : List String) (w w' : World) (d : List String)
    (ids : List String)
    (h : bulkApply userIDs deactivated w = ((d, none), w'))
    (hin : ∀ x ∈ w.users, x.UserID ∈ ids → x.IsActive = false) :
    ∀ x ∈ w'.users, x.UserID ∈ ids ++ userIDs → x.IsActive = false := by
  induction userIDs generalizing w deactivated ids with
  | nil =>
    unfold bulkApply at h
    cases h
    simpa using hin
  | cons userID rest ih =>
    unfold bulkApply at h
    split at h
    · cases h
    · rename_i user w1 h1
      split at h
      · cases h
      · rename_i prs w2 h2
        split at h
        · cases h
        · rename_i w3 h3
          split at h
          · cases h
          · rename_i r w4 h4
            have hu3 : w3.users = w.users := by
              have := bulkApplyPRs_users userID user prs w2
              rw [h3] at this
              exact (this.trans (GetPRsByReviewer_quiet h2).2.1).trans (GetUser_quiet h1).2.1
            have hu4 := UpdateUserActivity_users_ok h4
            rw [hu3] at hu4
            have := ih (deactivated ++ [userID]) w4 (ids ++ [userID]) h (by
              intro x hx hxid
              rw [hu4, List.mem_map] at hx
              obtain ⟨x0, hx0, rfl⟩ := hx
              by_cases e : x0.UserID = userID
              · simp [e]
              · have hb : (x0.UserID == userID) = false := by simpa using e
                simp only [hb, Bool.false_eq_true, if_false] at hxid ⊢
                rw [List.mem_append, List.mem_singleton] at hxid
                rcases hxid with hxid | hxid
                · exact hin x0 hx0 hxid
                · exact absurd hxid e)
            simpa [List.append_assoc] using this

/-- The part of C1 that holds on the code: after a successful
`BulkDeactivateUsers`, every row of `users` whose id is in the list is
inactive. -/
theorem BulkDeactivateUsers_inactive (w w' : World) (userIDs : List String)
    (d : Option (List String)) (h : BulkDeactivateUsers w userIDs = ((d, none), w')) :
    ∀ x ∈ w'.users, x.UserID ∈ userIDs → x.IsActive = false := by
  unfold BulkDeactivateUsers at h
  split at h
  · cases h
  · rename_i w1 h1
    split at h
    rename_i dd ee w2 h2
    simp only [Prod.mk.injEq] at h
    obtain ⟨⟨_, hee⟩, hw⟩ := h
    subst hw
    subst hee
    have := bulkApply_inactive userIDs [] w1 w2 dd [] h2 (by simp)
    simpa using this

/-! ## Repository calls that do not fail -/

theorem failure_of_faults_nil {w : World} (h : w.faults = []) : w.failure = none := by
  unfold World.failure; rw [h]

theorem GetPR_run {w : World} (prID : String) (hf : w.failure = none) :
    GetPR w prID = (.ok (findPR w.pull_requests prID), (w.logCall .GetPR).next) := by
  have hf2 : (w.logCall .GetPR).failure = none := hf
  unfold GetPR; simp only [hf2]; rfl

theorem GetUser_run {w : World} (userID : String) (hf : w.failure = none) :
    GetUser w userID = (.ok (findUser w.users userID), (w.logCall .GetUser).next) := by
  have hf2 : (w.logCall .GetUser).failure = none := hf
  unfold GetUser queryUser; simp only [hf2]; rfl

theorem GetTeam_run {w : World} (teamName : String) (hf : w.failure = none) :
    PostgresRepository.GetTeam w teamName =
      (.ok (if (teamMembers w.users teamName).length = 0 then none
            else some ⟨teamName, teamMembers w.users teamName⟩), (w.logCall .GetTeam).next) := by
  have hf2 : (w.logCall .GetTeam).failure = none := hf
  unfold PostgresRepository.GetTeam; simp only [hf2]
  show (if (teamMembers w.users teamName).length = 0 then _ else _) = _
  split <;> rfl

theorem PRExists_run {w : World} (prID : String) (hf : w.failure = none) :
    PRExists w prID =
      (.ok (w.pull_requests.any (fun p => p.PullRequestID == prID)), (w.logCall .PRExists).next) := by
  have hf2 : (w.logCall .PRExists).failure = none := hf
  unfold PRExists; simp only [hf2]; rfl

theorem GetPRsByReviewer_run {w : World} (userID : String) (hf : w.failure = none) :
    GetPRsByReviewer w userID =
      (.ok (prsByReviewer w.pull_requests userID), (w.logCall .GetPRsByReviewer).next) := by
  have hf2 : (w.logCall .GetPRsByReviewer).failure = none := hf
  unfold GetPRsByReviewer; simp only [hf2]; rfl

theorem faults_after_nil {w : World} (c : RepoCall) (h : w.faults = []) :
    (w.logCall c).next.faults = [] := by
  simp [World.next, World.logCall, h]

theorem writes_after_read (w : World) (c : RepoCall) (hc : c.isMutating = false) :
    (w.logCall c).next.writes = w.writes := (quiet_read w c hc).2.2.2

/-! ## Rejections of `ReassignReviewer` -/

/-- C11: for a stored pull request with status MERGED and any old user id,
`ReassignReviewer` (its read of the pull request not failing) returns
`ErrPRMerged`, hence no pull request and no replacement id; its only
repository call is `GetPR`, and the tables are as before. -/
theorem ReassignReviewer_merged (w : World) (prID oldUserID : String) (pr : PullRequest)
    (hp : findPR w.pull_requests prID = some pr) (hs : pr.Status = StatusMerged)
    (hf : w.failure = none) :
    (ReassignReviewer w prID oldUserID).1 = .error .ErrPRMerged ∧
      (ReassignReviewer w prID oldUserID).2.calls = w.calls ++ [.GetPR] ∧
      (ReassignReviewer w prID oldUserID).2.writes = w.writes ∧
      (ReassignReviewer w prID oldUserID).2.pull_requests = w.pull_requests ∧
      (ReassignReviewer w prID oldUserID).2.users = w.users ∧
      (ReassignReviewer w prID oldUserID).2.teams = w.teams := by
  have h : ReassignReviewer w prID oldUserID = (.error .ErrPRMerged, (w.logCall .GetPR).next) := by
    unfold ReassignReviewer
    rw [GetPR_run prID hf, hp]
    simp only [hs, if_true]
  rw [h]
  exact ⟨rfl, rfl, writes_after_read w _ rfl, rfl, rfl, rfl⟩

/-- C12: for a stored pull request with status OPEN and an old user id that
is not among its reviewers, `ReassignReviewer` (its read of the pull request
not failing) returns `ErrNotAssigned`; its only repository call is `GetPR`:
no user or team is looked up and nothing is written. -/
theorem ReassignReviewer_not_assigned (w : World) (prID oldUserID : String) (pr : PullRequest)
    (hp : findPR w.pull_requests prID = some pr) (hs : pr.Status = StatusOpen)
    (hn : oldUserID ∉ pr.AssignedReviewers) (hf : w.failure = none) :
    (ReassignReviewer w prID oldUserID).1 = .error .ErrNotAssigned ∧
      (ReassignReviewer w prID oldUserID).2.calls = w.calls ++ [.GetPR] ∧
      (ReassignReviewer w prID oldUserID).2.writes = w.writes ∧
      (ReassignReviewer w prID oldUserID).2.pull_requests = w.pull_requests ∧
      (ReassignReviewer w prID oldUserID).2.users = w.users ∧
      (ReassignReviewer w prID oldUserID).2.teams = w.teams := by
  have hc : contains pr.AssignedReviewers oldUserID = false := by
    rw [← Bool.not_eq_true, contains_iff]; exact hn
  have hm : ¬ pr.Status = StatusMerged := by rw [hs]; decide
  have h : ReassignReviewer w prID oldUserID =
      (.error .ErrNotAssigned, (w.logCall .GetPR).next) := by
    unfold ReassignReviewer
    rw [GetPR_run prID hf, hp]
    simp only [hm, if_false, hc, Bool.not_false, if_true]
  rw [h]
  exact ⟨rfl, rfl, writes_after_read w _ rfl, rfl, rfl, rfl⟩

/-- Witness of C11: `u2` cannot be replaced on the merged `p1` of `exMerged`. -/
theorem ReassignReviewer_merged_witness :
    (ReassignReviewer exMerged "p1" "u2").1 = .error .ErrPRMerged ∧
      (ReassignReviewer exMerged "p1" "u2").2.calls = exMerged.calls ++ [.GetPR] ∧
      (ReassignReviewer exMerged "p1" "u2").2.writes = exMerged.writes ∧
      (ReassignReviewer exMerged "p1" "u2").2.pull_requests = exMerged.pull_requests ∧
      (ReassignReviewer exMerged "p1" "u2").2.users = exMerged.users ∧
      (ReassignReviewer exMerged "p1" "u2").2.teams = exMerged.teams :=
  ReassignReviewer_merged exMerged "p1" "u2"
    ⟨"p1", "n", "u1", "MERGED", ["u2", "u3"], some 5, some 9⟩ (by decide) rfl (by decide)

/-- Witness of C12: `u4` is not a reviewer of `p1` in `exWorld`. -/
theorem ReassignReviewer_not_assigned_witness :
    (ReassignReviewer exWorld "p1" "u4").1 = .error .ErrNotAssigned ∧
      (ReassignReviewer exWorld "p1" "u4").2.calls = exWorld.calls ++ [.GetPR] ∧
      (ReassignReviewer exWorld "p1" "u4").2.writes = exWorld.writes ∧
      (ReassignReviewer exWorld "p1" "u4").2.pull_requests = exWorld.pull_requests ∧
      (ReassignReviewer exWorld "p1" "u4").2.users = exWorld.users ∧
      (ReassignReviewer exWorld "p1" "u4").2.teams = exWorld.teams :=
  ReassignReviewer_not_assigned exWorld "p1" "u4"
    ⟨"p1", "n", "u1", "OPEN", ["u2", "u3"], some 5, none⟩ (by decide) rfl (by decide) (by decide)

/-! ## Initial selection: the indices -/

/-- C19: for a candidate pool of size `n` and draws `idx1 < n`,
`idx2 < n - 1`, the two indices `selectReviewers` reads, `idx1` and the
adjusted `idx2`, are below `n`, and the pool has an element at each. -/
theorem selectReviewers_index_safe (team : Team) (authorID : String) (idx1 idx2 : Nat)
    (h1 : idx1 < (candidatePool team authorID).length)
    (h2 : idx2 < (candidatePool team authorID).length - 1) :
    idx1 < (candidatePool team authorID).length ∧
      secondIndex idx1 idx2 < (candidatePool team authorID).length ∧
      ∃ a b, (candidatePool team authorID)[idx1]? = some a ∧
        (candidatePool team authorID)[secondIndex idx1 idx2]? = some b := by
  have h3 := secondIndex_lt h1 h2
  exact ⟨h1, h3, _, _, List.getElem?_eq_getElem h1, List.getElem?_eq_getElem h3⟩

/-- Witness of C19: the draws `2, 1` on the pool of `exTeam` for `u1`. -/
theorem selectReviewers_index_safe_witness :
    2 < (candidatePool exTeam "u1").length ∧
      secondIndex 2 1 < (candidatePool exTeam "u1").length ∧
      ∃ a b, (candidatePool exTeam "u1")[2]? = some a ∧
        (candidatePool exTeam "u1")[secondIndex 2 1]? = some b :=
  selectReviewers_index_safe exTeam "u1" 2 1 (by decide) (by decide)

/-- C20: for two different indices `a`, `b` of a candidate pool of size `n`,
there are draws `idx1 < n`, `idx2 < n - 1` on which `selectReviewers` returns
the candidates at `a` and `b`, in one order or the other. -/
theorem selectReviewers_covers (team : Team) (authorID : String) (a b : Nat) (rest : List Nat)
    (ha : a < (candidatePool team authorID).length)
    (hb : b < (candidatePool team authorID).length) (hab : a ≠ b) :
    ∃ idx1 idx2, idx1 < (candidatePool team authorID).length ∧
      idx2 < (candidatePool team authorID).length - 1 ∧
      ∃ x y, (candidatePool team authorID)[a]? = some x ∧
        (candidatePool team authorID)[b]? = some y ∧
        ((selectReviewers team authorID (idx1 :: idx2 :: rest)).1 = [x, y] ∨
         (selectReviewers team authorID (idx1 :: idx2 :: rest)).1 = [y, x]) := by
  -- the larger index is drawn first, the smaller one second: no adjustment
  have key : ∀ i j, i < j → j < (candidatePool team authorID).length →
      ∃ x y, (candidatePool team authorID)[i]? = some x ∧
        (candidatePool team authorID)[j]? = some y ∧
        (selectReviewers team authorID (j :: i :: rest)).1 = [y, x] := by
    intro i j hij hj
    have hi2 : i < (candidatePool team authorID).length - 1 := by omega
    obtain ⟨y, x, hsel, hy, hx⟩ := @selectReviewers_pair team authorID (j :: i :: rest) (by omega)
    rw [Intn_cons_of_lt _ hj] at hy hx
    simp only [] at hy hx
    rw [Intn_cons_of_lt _ hi2] at hx
    simp only [] at hx
    have hsec : secondIndex j i = i := by
      unfold secondIndex; split <;> omega
    rw [hsec] at hx
    exact ⟨x, y, hx, hy, hsel⟩
  rcases Nat.lt_or_gt_of_ne hab with h | h
  · obtain ⟨x, y, hx, hy, hsel⟩ := key a b h hb
    exact ⟨b, a, hb, by omega, x, y, hx, hy, Or.inr hsel⟩
  · obtain ⟨y, x, hy, hx, hsel⟩ := key b a h ha
    exact ⟨a, b, ha, by omega, x, y, hx, hy, Or.inl hsel⟩

/-- Witness of C20: the candidates at 0 and 2 of the pool of `exTeam` for `u1`. -/
theorem selectReviewers_covers_witness :
    ∃ idx1 idx2, idx1 < (candidatePool exTeam "u1").length ∧
      idx2 < (candidatePool exTeam "u1").length - 1 ∧
      ∃ x y, (candidatePool exTeam "u1")[0]? = some x ∧
        (candidatePool exTeam "u1")[2]? = some y ∧
        ((selectReviewers exTeam "u1" (idx1 :: idx2 :: [])).1 = [x, y] ∨
         (selectReviewers exTeam "u1" (idx1 :: idx2 :: [])).1 = [y, x]) :=
  selectReviewers_covers exTeam "u1" 0 2 [] (by decide) (by decide) (by decide)

/-! ## Bulk deactivation: the returned list -/

theorem bulkApply_deactivated (userIDs deactivated : List String) (w w' : World)
    (d : List String) (e : Option Err)
    (h : bulkApply userIDs deactivated w = ((d, e), w')) :
    ∃ k, k ≤ userIDs.length ∧ d = deactivated ++ userIDs.take k ∧
      (e = none → k = userIDs.length) := by
  induction userIDs generalizing w deactivated with
  | nil =>
    unfold bulkApply at h
    cases h
    exact ⟨0, by simp, by simp, fun _ => rfl⟩
  | cons userID rest ih =>
    have stop : ∀ {err : Err} {w1 : World},
        ((deactivated, some err), w1) = ((d, e), w') →
        ∃ k, k ≤ (userID :: rest).length ∧ d = deactivated ++ (userID :: rest).take k ∧
          (e = none → k = (userID :: rest).length) := by
      intro err w1 hh
      simp only [Prod.mk.injEq] at hh
      obtain ⟨⟨hd, he⟩, _⟩ := hh
      refine ⟨0, by simp, by simp [hd], ?_⟩
      intro hn; rw [hn] at he; cases he
    unfold bulkApply at h
    split at h
    · exact stop h
    · split at h
      · exact stop h
      · split at h
        · exact stop h
        · split at h
          · exact stop h
          · obtain ⟨k, hk, hd, he⟩ := ih _ _ h
            refine ⟨k + 1, by simp; omega, ?_, ?_⟩
            · rw [hd]; simp
            · intro hn; simp [he hn]

/-- C16: when `BulkDeactivateUsers` returns no error, the returned list is
the input list; when it returns a list together with an error (an error of
the second phase), the list is an initial segment of the input list; an
error of the first phase comes with the `nil` slice. -/
theorem BulkDeactivateUsers_deactivated (w w' : World) (userIDs : List String)
    (d : Option (List String)) (e : Option Err)
    (h : BulkDeactivateUsers w userIDs = ((d, e), w')) :
    (e = none → d = some userIDs) ∧
      (∀ l, d = some l → ∃ k, l = userIDs.take k) ∧
      (d = none → e ≠ none ∧ (bulkCheck userIDs w).1 = e) := by
  unfold BulkDeactivateUsers at h
  split at h
  · rename_i err w1 h1
    simp only [Prod.mk.injEq] at h
    obtain ⟨⟨hd, he⟩, _⟩ := h
    subst hd; subst he
    refine ⟨?_, ?_, ?_⟩
    · intro hn; cases hn
    · intro l hl; cases hl
    · intro _
      refine ⟨?_, ?_⟩
      · intro hn; cases hn
      · rw [h1]
  · rename_i w1 h1
    split at h
    rename_i dd ee w2 h2
    simp only [Prod.mk.injEq] at h
    obtain ⟨⟨hd, he⟩, _⟩ := h
    subst hd; subst he
    obtain ⟨k, _, hk, hfull⟩ := bulkApply_deactivated userIDs [] w1 w2 dd ee h2
    simp only [List.nil_append] at hk
    refine ⟨?_, ?_, fun hn => by cases hn⟩
    · intro hn
      rw [hk, hfull hn, List.take_length]
    · intro l hl
      simp only [Option.some.injEq] at hl
      exact ⟨k, by rw [← hl, hk]⟩

/-- Witness of C16: `u2` and `u3` are returned in the order given. -/
theorem BulkDeactivateUsers_deactivated_witness :
    (some ["u2", "u3"] : Option (List String)) = some ["u2", "u3"] :=
  (BulkDeactivateUsers_deactivated exWorld (BulkDeactivateUsers exWorld ["u2", "u3"]).2
    ["u2", "u3"] (some ["u2", "u3"]) none rfl).1 rfl

/-! ## Replacement: the empty string as "no candidate" -/

theorem after_users (w : World) (c : RepoCall) : (w.logCall c).next.users = w.users := rfl

theorem after_prs (w : World) (c : RepoCall) :
    (w.logCall c).next.pull_requests = w.pull_requests := rfl

theorem after_teams (w : World) (c : RepoCall) : (w.logCall c).next.teams = w.teams := rfl

theorem after_rand (w : World) (c : RepoCall) : (w.logCall c).next.rand = w.rand := rfl

theorem teamMembers_ne_nil {users : List User} {userID : String} {u : User}
    (h : findUser users userID = some u) : teamMembers users u.TeamName ≠ [] := by
  have hm : u ∈ users := List.mem_of_find?_eq_some h
  have hf : u ∈ users.filter (fun x => x.TeamName == u.TeamName) := by
    rw [List.mem_filter]; exact ⟨hm, by simp⟩
  have hs := (List.perm_insertionSort (fun a b : User => userIDLe a.UserID b.UserID = true)
    (users.filter (fun x => x.TeamName == u.TeamName))).mem_iff.2 hf
  unfold teamMembers
  intro hnil
  rw [List.map_eq_nil_iff] at hnil
  rw [hnil] at hs
  cases hs

theorem selectReplacementReviewer_eq_empty_iff {team : Team} {oldUserID authorID : String}
    {currentReviewers : List String} (rnd : List Nat)
    (hids : ∀ m ∈ team.Members, m.UserID ≠ "") :
    (selectReplacementReviewer team oldUserID authorID currentReviewers rnd).1 = "" ↔
      replacementPool team oldUserID authorID currentReviewers = [] := by
  constructor
  · intro h
    by_contra hne
    have hmem := selectReplacementReviewer_mem rnd hne
    rw [h] at hmem
    obtain ⟨m, hm, hmid, _⟩ := mem_replacementPool.1 hmem
    exact hids m hm hmid
  · intro h
    rw [selectReplacementReviewer_nil rnd h]

theorem ReassignReviewer_no_candidate_iff {w : World} {prID oldUserID : String}
    {pr : PullRequest} {u : User} (hf : w.faults = [])
    (hp : findPR w.pull_requests prID = some pr) (hs : pr.Status ≠ StatusMerged)
    (hc : oldUserID ∈ pr.AssignedReviewers) (hu : findUser w.users oldUserID = some u) :
    (ReassignReviewer w prID oldUserID).1 = .error .ErrNoCandidate ↔
      (selectReplacementReviewer ⟨u.TeamName, teamMembers w.users u.TeamName⟩ oldUserID
        pr.AuthorID pr.AssignedReviewers w.rand).1 = "" := by
  have hc2 : contains pr.AssignedReviewers oldUserID = true := (contains_iff _ _).2 hc
  have hne := teamMembers_ne_nil hu
  have hlen : ¬ (teamMembers w.users u.TeamName).length = 0 := by
    simpa using hne
  have f0 := failure_of_faults_nil hf
  have hf1 := faults_after_nil .GetPR hf
  have f1 := failure_of_faults_nil hf1
  have hf2 := faults_after_nil .GetUser hf1
  have f2 := failure_of_faults_nil hf2
  unfold ReassignReviewer
  rw [GetPR_run prID f0, hp]
  simp only [hs, if_false, hc2, Bool.not_true, Bool.false_eq_true]
  rw [GetUser_run oldUserID f1]
  simp only [after_users, hu]
  rw [GetTeam_run u.TeamName f2]
  simp only [after_users, after_rand, hlen, if_false]
  split
  · rename_i h; simp [h]
  · rename_i h
    simp only [h, iff_false]
    split
    · rename_i e4 w4 h4
      obtain ⟨_, _, _, msg, hmsg⟩ := UpdatePRReviewers_error h4
      rw [hmsg]; simp
    · simp

/-- C13 on the code: the only member of `exBlank` has the user id `""`; the
replacement pool is not empty, yet the selection is the empty string. In
`exBlankWorld` the pool for `b2` on `r1` is `[""]` and `ReassignReviewer`
returns `ErrNoCandidate`. -/
theorem selectReplacementReviewer_blank_id :
    ¬ ((selectReplacementReviewer exBlank "o" "a" [] [0]).1 = "" ↔
        replacementPool exBlank "o" "a" [] = []) ∧
    replacementPool ⟨"B", teamMembers exBlankWorld.users "B"⟩ "b2" "b1" ["b2", "b3"] = [""] ∧
    (ReassignReviewer exBlankWorld "r1" "b2").1 = .error .ErrNoCandidate := by
  refine ⟨?_, by decide, rfl⟩
  intro h
  have h1 : (selectReplacementReviewer exBlank "o" "a" [] [0]).1 = "" := by decide
  have h2 : replacementPool exBlank "o" "a" [] ≠ [] := by decide
  exact h2 (h.1 h1)

/-- C13, amended: for a team whose members all have a non-empty user id,
`selectReplacementReviewer` returns the empty string exactly when the
replacement pool is empty, and otherwise the user id of an active member
that is not the old reviewer, not the author and not a current reviewer;
on a pull request that is not merged and names the old reviewer, whose team
has only non-empty user ids, `ReassignReviewer` (no repository call failing)
returns `ErrNoCandidate` exactly when the replacement pool is empty. -/
theorem selectReplacementReviewer_no_candidate (team : Team) (oldUserID authorID : String)
    (currentReviewers : List String) (rnd : List Nat)
    (hids : ∀ m ∈ team.Members, m.UserID ≠ "") :
    ((selectReplacementReviewer team oldUserID authorID currentReviewers rnd).1 = "" ↔
      replacementPool team oldUserID authorID currentReviewers = []) ∧
    (replacementPool team oldUserID authorID currentReviewers ≠ [] →
      ∃ m ∈ team.Members,
        m.UserID = (selectReplacementReviewer team oldUserID authorID currentReviewers rnd).1 ∧
        m.IsActive = true ∧ m.UserID ≠ oldUserID ∧ m.UserID ≠ authorID ∧
        m.UserID ∉ currentReviewers) ∧
    (∀ (w : World) (prID : String) (pr : PullRequest) (u : User),
      w.faults = [] → findPR w.pull_requests prID = some pr → pr.Status ≠ StatusMerged →
      oldUserID ∈ pr.AssignedReviewers → findUser w.users oldUserID = some u →
      (∀ m ∈ teamMembers w.users u.TeamName, m.UserID ≠ "") →
      ((ReassignReviewer w prID oldUserID).1 = .error .ErrNoCandidate ↔
        replacementPool ⟨u.TeamName, teamMembers w.users u.TeamName⟩ oldUserID pr.AuthorID
          pr.AssignedReviewers = [])) := by
  refine ⟨selectReplacementReviewer_eq_empty_iff rnd hids, ?_, ?_⟩
  · intro hne
    obtain ⟨m, hm, hmid, h1, h2, h3, h4⟩ :=
      mem_replacementPool.1 (selectReplacementReviewer_mem rnd hne)
    exact ⟨m, hm, hmid, h1, hmid ▸ h2, hmid ▸ h3, hmid ▸ h4⟩
  · intro w prID pr u hf hp hs hc hu hteam
    rw [ReassignReviewer_no_candidate_iff hf hp hs hc hu]
    exact selectReplacementReviewer_eq_empty_iff w.rand hteam

/-- Witness of C13: in `exTeam` every user id is non-empty; replacing `u2`
on a pull request of `u1` reviewed by `u2`, `u3` selects `u4`. -/
theorem selectReplacementReviewer_no_candidate_witness :
    ∃ m ∈ exTeam.Members,
      m.UserID = (selectReplacementReviewer exTeam "u2" "u1" ["u2", "u3"] [5]).1 ∧
      m.IsActive = true ∧ m.UserID ≠ "u2" ∧ m.UserID ≠ "u1" ∧ m.UserID ∉ ["u2", "u3"] :=
  (selectReplacementReviewer_no_candidate exTeam "u2" "u1" ["u2", "u3"] [5] (by decide)).2.1
    (by decide)

/-! ## Merging twice -/

theorem findPR_map_status (prs : List PullRequest) (prID : String) (st : PullRequestStatus)
    (t : Option Nat) :
    findPR (prs.map (fun p =>
        if p.PullRequestID == prID then { p with Status := st, MergedAt := t } else p)) prID =
      (findPR prs prID).map (fun p => { p with Status := st, MergedAt := t }) := by
  induction prs with
  | nil => rfl
  | cons a rest ih =>
    unfold findPR at ih ⊢
    by_cases e : a.PullRequestID = prID
    · simp [List.find?, e]
    · have : (a.PullRequestID == prID) = false := by simpa using e
      simp only [List.map_cons, this, List.find?, Bool.false_eq_true, if_false]
      exact ih

theorem UpdatePRStatus_run {w : World} (prID : String) (st : PullRequestStatus) (t : Option Nat)
    (hf : w.failure = none) :
    UpdatePRStatus w prID st t =
      (.ok (), { (w.logCall .UpdatePRStatus).next with
        pull_requests := w.pull_requests.map (fun p =>
          if p.PullRequestID == prID then { p with Status := st, MergedAt := t } else p) }) := by
  have hf2 : (w.logCall .UpdatePRStatus).failure = none := hf
  unfold UpdatePRStatus; simp only [hf2]; rfl

/-- C14: for a stored pull request and a repository that does not fail, a
first `MergePR` succeeds with a pull request of status MERGED, and a second
`MergePR` returns the same pull request, with the same `merged_at` whatever
the time of the second call; the second call only calls `GetPR`, so the
tables after it are the tables after the first call. -/
theorem MergePR_idempotent (w : World) (prID : String) (now1 now2 : Nat) (pr : PullRequest)
    (hf : w.faults = []) (hp : findPR w.pull_requests prID = some pr) :
    ∃ merged w1, MergePR w prID now1 = (.ok merged, w1) ∧
      merged.Status = StatusMerged ∧
      findPR w1.pull_requests prID = some merged ∧
      (MergePR w1 prID now2).1 = .ok merged ∧
      (MergePR w1 prID now2).2.calls = w1.calls ++ [.GetPR] ∧
      (MergePR w1 prID now2).2.writes = w1.writes ∧
      (MergePR w1 prID now2).2.pull_requests = w1.pull_requests ∧
      (MergePR w1 prID now2).2.users = w1.users ∧
      (MergePR w1 prID now2).2.teams = w1.teams := by
  have f0 := failure_of_faults_nil hf
  have hf1 := faults_after_nil .GetPR hf
  have f1 := failure_of_faults_nil hf1
  -- a second call on a state that stores a merged pull request
  have second : ∀ (w1 : World) (merged : PullRequest), w1.failure = none →
      findPR w1.pull_requests prID = some merged → merged.Status = StatusMerged →
      MergePR w1 prID now2 = (.ok merged, (w1.logCall .GetPR).next) := by
    intro w1 merged g hm hs
    unfold MergePR
    rw [GetPR_run prID g, hm]
    simp only [hs, if_true]
  by_cases hs : pr.Status = StatusMerged
  · have h1 : MergePR w prID now1 = (.ok pr, (w.logCall .GetPR).next) := by
      unfold MergePR
      rw [GetPR_run prID f0, hp]
      simp only [hs, if_true]
    refine ⟨pr, _, h1, hs, hp, ?_⟩
    rw [second _ pr f1 hp hs]
    exact ⟨rfl, rfl, writes_after_read _ _ rfl, rfl, rfl, rfl⟩
  · have h1 : MergePR w prID now1 =
        (.ok { pr with Status := StatusMerged, MergedAt := some now1 },
         { ((w.logCall .GetPR).next.logCall .UpdatePRStatus).next with
            pull_requests := w.pull_requests.map (fun p =>
              if p.PullRequestID == prID then
                { p with Status := StatusMerged, MergedAt := some now1 } else p) }) := by
      unfold MergePR
      rw [GetPR_run prID f0, hp]
      simp only [hs, if_false]
      rw [UpdatePRStatus_run prID StatusMerged (some now1) f1]
      rfl
    have hstored : findPR (w.pull_requests.map (fun p =>
        if p.PullRequestID == prID then
          { p with Status := StatusMerged, MergedAt := some now1 } else p)) prID =
        some { pr with Status := StatusMerged, MergedAt := some now1 } := by
      rw [findPR_map_status, hp]; rfl
    have f2 : ({ ((w.logCall .GetPR).next.logCall .UpdatePRStatus).next with
            pull_requests := w.pull_requests.map (fun p =>
              if p.PullRequestID == prID then
                { p with Status := StatusMerged, MergedAt := some now1 } else p) } : World).failure
        = none := by
      apply failure_of_faults_nil
      simp [World.next, World.logCall, hf]
    refine ⟨_, _, h1, rfl, hstored, ?_⟩
    rw [second _ _ f2 hstored rfl]
    exact ⟨rfl, rfl, writes_after_read _ _ rfl, rfl, rfl, rfl⟩

/-- Witness of C14: the pull request `p1` of `exWorld` is merged at time 9
and stays so at time 12. -/
theorem MergePR_idempotent_witness :
    ∃ merged w1, MergePR exWorld "p1" 9 = (.ok merged, w1) ∧
      merged.Status = StatusMerged ∧
      findPR w1.pull_requests "p1" = some merged ∧
      (MergePR w1 "p1" 12).1 = .ok merged ∧
      (MergePR w1 "p1" 12).2.calls = w1.calls ++ [.GetPR] ∧
      (MergePR w1 "p1" 12).2.writes = w1.writes ∧
      (MergePR w1 "p1" 12).2.pull_requests = w1.pull_requests ∧
      (MergePR w1 "p1" 12).2.users = w1.users ∧
      (MergePR w1 "p1" 12).2.teams = w1.teams :=
  MergePR_idempotent exWorld "p1" 9 12 ⟨"p1", "n", "u1", "OPEN", ["u2", "u3"], some 5, none⟩
    (by decide) (by decide)

/-! ## Creating a pull request -/

theorem any_id_eq_true {prs : List PullRequest} {prID : String} :
    prs.any (fun p => p.PullRequestID == prID) = true ↔ ∃ p ∈ prs, p.PullRequestID = prID := by
  rw [List.any_eq_true]
  constructor
  · rintro ⟨p, hp, he⟩; exact ⟨p, hp, by simpa using he⟩
  · rintro ⟨p, hp, he⟩; exact ⟨p, hp, by simpa using he⟩

theorem findPR_append_new {prs : List PullRequest} {pr : PullRequest}
    (h : prs.any (fun p => p.PullRequestID == pr.PullRequestID) = false) :
    findPR (prs ++ [pr]) pr.PullRequestID = some pr := by
  unfold findPR
  rw [List.find?_append]
  have : prs.find? (fun p => p.PullRequestID == pr.PullRequestID) = none := by
    rw [List.find?_eq_none]
    intro x hx hxe
    have : prs.any (fun p => p.PullRequestID == pr.PullRequestID) = true :=
      List.any_eq_true.2 ⟨x, hx, hxe⟩
    rw [h] at this; cases this
  rw [this]
  simp [List.find?]

/-- After `GetTeam` has returned without error, `CreatePR` is the code of
lines 105-126 run on the pointer it returned. -/
theorem CreatePR_after_GetTeam {w w1 w2 w3 : World} {prID prName authorID : String} {now : Nat}
    {author : User} {team : Option Team}
    (h1 : PRExists w prID = (.ok false, w1))
    (h2 : GetUser w1 authorID = (.ok (some author), w2))
    (h3 : PostgresRepository.GetTeam w2 author.TeamName = (.ok team, w3)) :
    Service.CreatePR w prID prName authorID now =
      createPRWithTeam w3 prID prName authorID now team := by
  cases team with
  | none =>
    simp only [Service.CreatePR, h1, h2, h3, createPRWithTeam]
    simp
  | some t =>
    simp only [Service.CreatePR, h1, h2, h3, createPRWithTeam]
    simp

/-- C18: (no repository call failing) when a pull request with the id is
stored, `CreatePR` returns `ErrPRExists`, whoever the author; otherwise, when
the author is not stored, it returns `ErrNotFound`; in both cases the
repository method `CreatePR` is not called and nothing is written. Once the
author is read, `CreatePR` is the code of lines 105-126 run on the pointer
`GetTeam` returns, and on the `nil` pointer (the team is absent) this code
returns `ErrNotFound` and the state `GetTeam` left, with no further call.
When `CreatePR` succeeds, the returned pull request has the given id, name
and author, status OPEN, `created_at` set and `merged_at` null, and is the
pull request stored under the id. -/
theorem CreatePR_rejects (w : World) (prID prName authorID : String) (now : Nat) :
    (w.faults = [] → (∃ p ∈ w.pull_requests, p.PullRequestID = prID) →
      (Service.CreatePR w prID prName authorID now).1 = .error .ErrPRExists ∧
      (Service.CreatePR w prID prName authorID now).2.calls = w.calls ++ [.PRExists] ∧
      (Service.CreatePR w prID prName authorID now).2.writes = w.writes ∧
      (Service.CreatePR w prID prName authorID now).2.pull_requests = w.pull_requests) ∧
    (w.faults = [] → (¬ ∃ p ∈ w.pull_requests, p.PullRequestID = prID) →
      findUser w.users authorID = none →
      (Service.CreatePR w prID prName authorID now).1 = .error .ErrNotFound ∧
      (Service.CreatePR w prID prName authorID now).2.calls =
        w.calls ++ [.PRExists, .GetUser] ∧
      (Service.CreatePR w prID prName authorID now).2.writes = w.writes ∧
      (Service.CreatePR w prID prName authorID now).2.pull_requests = w.pull_requests) ∧
    (∀ (w1 w2 w3 : World) (author : User) (team : Option Team),
      PRExists w prID = (.ok false, w1) →
      GetUser w1 authorID = (.ok (some author), w2) →
      PostgresRepository.GetTeam w2 author.TeamName = (.ok team, w3) →
      Service.CreatePR w prID prName authorID now =
        createPRWithTeam w3 prID prName authorID now team) ∧
    (∀ w3 : World,
      createPRWithTeam w3 prID prName authorID now none = (.error .ErrNotFound, w3)) ∧
    (∀ (pr : PullRequest) (w' : World),
      Service.CreatePR w prID prName authorID now = (.ok pr, w') →
      pr.PullRequestID = prID ∧ pr.PullRequestName = prName ∧ pr.AuthorID = authorID ∧
      pr.Status = StatusOpen ∧ pr.CreatedAt = some now ∧ pr.MergedAt = none ∧
      findPR w'.pull_requests prID = some pr) := by
  refine ⟨?_, ?_, ?_, ?_, ?_⟩
  · intro hf hex
    have f0 := failure_of_faults_nil hf
    have hany := any_id_eq_true.2 hex
    have h : Service.CreatePR w prID prName authorID now =
        (.error .ErrPRExists, (w.logCall .PRExists).next) := by
      unfold Service.CreatePR
      rw [PRExists_run prID f0]
      simp only [hany, if_true]
    rw [h]
    exact ⟨rfl, rfl, writes_after_read _ _ rfl, rfl⟩
  · intro hf hnex hu
    have f0 := failure_of_faults_nil hf
    have hf1 := faults_after_nil .PRExists hf
    have f1 := failure_of_faults_nil hf1
    have hany : w.pull_requests.any (fun p => p.PullRequestID == prID) = false := by
      rw [← Bool.not_eq_true, any_id_eq_true]; exact hnex
    have h : Service.CreatePR w prID prName authorID now =
        (.error .ErrNotFound, ((w.logCall .PRExists).next.logCall .GetUser).next) := by
      unfold Service.CreatePR
      rw [PRExists_run prID f0]
      simp only [hany, Bool.false_eq_true, if_false]
      rw [GetUser_run authorID f1]
      simp only [after_users, hu]
    rw [h]
    refine ⟨rfl, ?_, ?_, rfl⟩
    · simp [World.next, World.logCall]
    · rw [writes_after_read _ .GetUser rfl, writes_after_read _ .PRExists rfl]
  · intro w1 w2 w3 author team h1 h2 h3
    exact CreatePR_after_GetTeam h1 h2 h3
  · intro w3
    rfl
  · intro pr w' h
    obtain ⟨author, _, _, hfresh, hpr, hprs, _, _⟩ := CreatePR_ok h
    have hid : pr.PullRequestID = prID := by rw [hpr]
    refine ⟨hid, by rw [hpr], by rw [hpr], by rw [hpr], by rw [hpr], by rw [hpr], ?_⟩
    rw [hprs, ← hid]
    apply findPR_append_new
    rw [hid]; exact hfresh

/-- Witness of C18: in `exWorld` the id `p1` is taken, and the user `zz` is
not stored; in `exTeamOnly` the author `u1` and the team `T` are read, and
`CreatePR` is the code after `GetTeam`, which succeeds and gives `exWorld`;
on the `nil` pointer this code returns `ErrNotFound`. -/
theorem CreatePR_rejects_witness :
    ((Service.CreatePR exWorld "p1" "m" "zz" 7).1 = .error .ErrPRExists ∧
      (Service.CreatePR exWorld "p1" "m" "zz" 7).2.calls = exWorld.calls ++ [.PRExists] ∧
      (Service.CreatePR exWorld "p1" "m" "zz" 7).2.writes = exWorld.writes ∧
      (Service.CreatePR exWorld "p1" "m" "zz" 7).2.pull_requests = exWorld.pull_requests) ∧
    ((Service.CreatePR exWorld "p2" "m" "zz" 7).1 = .error .ErrNotFound ∧
      (Service.CreatePR exWorld "p2" "m" "zz" 7).2.calls =
        exWorld.calls ++ [.PRExists, .GetUser] ∧
      (Service.CreatePR exWorld "p2" "m" "zz" 7).2.writes = exWorld.writes ∧
      (Service.CreatePR exWorld "p2" "m" "zz" 7).2.pull_requests = exWorld.pull_requests) ∧
    (Service.CreatePR exTeamOnly "p1" "n" "u1" 5 =
      createPRWithTeam
        (PostgresRepository.GetTeam (GetUser (PRExists exTeamOnly "p1").2 "u1").2 "T").2
        "p1" "n" "u1" 5 (some ⟨"T", teamMembers exTeamOnly.users "T"⟩)) ∧
    (createPRWithTeam exTeamOnly "p1" "n" "u1" 5 none = (.error .ErrNotFound, exTeamOnly)) ∧
    (("p1" : String) = "p1" ∧ ("n" : String) = "n" ∧ ("u1" : String) = "u1" ∧
      ("OPEN" : String) = StatusOpen ∧ some 5 = some 5 ∧ (none : Option Nat) = none ∧
      findPR exWorld.pull_requests "p1" =
        some ⟨"p1", "n", "u1", "OPEN", ["u2", "u3"], some 5, none⟩) :=
  ⟨(CreatePR_rejects exWorld "p1" "m" "zz" 7).1 (by decide) (by decide),
   (CreatePR_rejects exWorld "p2" "m" "zz" 7).2.1 (by decide) (by decide) (by decide),
   (CreatePR_rejects exTeamOnly "p1" "n" "u1" 5).2.2.1
     (PRExists exTeamOnly "p1").2 (GetUser (PRExists exTeamOnly "p1").2 "u1").2
     (PostgresRepository.GetTeam (GetUser (PRExists exTeamOnly "p1").2 "u1").2 "T").2
     ⟨"u1", "a", "T", true⟩ (some ⟨"T", teamMembers exTeamOnly.users "T"⟩) rfl rfl rfl,
   (CreatePR_rejects exTeamOnly "p1" "n" "u1" 5).2.2.2.1 exTeamOnly,
   (CreatePR_rejects exTeamOnly "p1" "n" "u1" 5).2.2.2.2
     ⟨"p1", "n", "u1", "OPEN", ["u2", "u3"], some 5, none⟩ exWorld rfl⟩

/-! ## Merged pull requests are final -/

theorem CreateTeam_prs (w : World) (team : Team) :
    (Service.CreateTeam w team).2.pull_requests = w.pull_requests := by
  unfold Service.CreateTeam
  split
  · rename_i h1; exact (TeamExists_quiet h1).2.2.1
  · rename_i found w1 h1
    have q := (TeamExists_quiet h1).2.2.1
    split
    · exact q
    · rw [← q]
      unfold PostgresRepository.CreateTeam
      simp only []
      split
      · rfl
      · split
        · rfl
        · have ht := insertMembers_tables team.TeamName team.Members
            (w1.logCall .CreateTeam).next.next.users (w1.logCall .CreateTeam).next.next
          split
          · rename_i hi; rw [hi] at ht; exact ht.2.1
          · rename_i hi; rw [hi] at ht
            split
            · exact ht.2.1
            · exact ht.2.1

theorem UpdateUserActivity_prs (w : World) (userID : String) (b : Bool) :
    (UpdateUserActivity w userID b).2.pull_requests = w.pull_requests := by
  unfold UpdateUserActivity queryUser
  simp only []
  split
  · rfl
  · split <;> rfl

theorem SetUserActivity_prs (w : World) (userID : String) (b : Bool) :
    (SetUserActivity w userID b).2.pull_requests = w.pull_requests := by
  unfold SetUserActivity
  split
  · rename_i h1; exact (GetUser_quiet h1).2.2.1
  · rename_i h1; exact (GetUser_quiet h1).2.2.1
  · rename_i h1; exact (UpdateUserActivity_prs _ _ _).trans (GetUser_quiet h1).2.2.1

theorem CreatePR_prs (w : World) (prID prName authorID : String) (now : Nat) :
    (Service.CreatePR w prID prName authorID now).2.pull_requests = w.pull_requests ∨
      ∃ pr, pr.Status = StatusOpen ∧
        (Service.CreatePR w prID prName authorID now).2.pull_requests = w.pull_requests ++ [pr] := by
  rcases hres : Service.CreatePR w prID prName authorID now with ⟨r, w'⟩
  cases r with
  | error e => exact Or.inl (CreatePR_error_tables hres).2
  | ok pr =>
    obtain ⟨author, _, _, _, hpr, hprs, _, _⟩ := CreatePR_ok hres
    exact Or.inr ⟨pr, by rw [hpr], hprs⟩

theorem UpdatePRStatus_prs (w : World) (prID : String) (st : PullRequestStatus) (t : Option Nat) :
    (UpdatePRStatus w prID st t).2.pull_requests = w.pull_requests ∨
      (UpdatePRStatus w prID st t).2.pull_requests = w.pull_requests.map (fun p =>
        if p.PullRequestID == prID then { p with Status := st, MergedAt := t } else p) := by
  unfold UpdatePRStatus
  simp only []
  split
  · exact Or.inl rfl
  · exact Or.inr rfl

theorem MergePR_prs (w : World) (prID : String) (now : Nat) :
    (MergePR w prID now).2.pull_requests = w.pull_requests ∨
      ∃ pr, findPR w.pull_requests prID = some pr ∧ pr.Status ≠ StatusMerged ∧
        (MergePR w prID now).2.pull_requests = w.pull_requests.map (fun p =>
          if p.PullRequestID == prID then
            { p with Status := StatusMerged, MergedAt := some now } else p) := by
  unfold MergePR
  split
  · rename_i h1; exact Or.inl (GetPR_quiet h1).2.2.1
  · rename_i h1; exact Or.inl (GetPR_quiet h1).2.2.1
  · rename_i pr w1 h1
    have q := (GetPR_quiet h1).2.2.1
    split
    · exact Or.inl q
    · rename_i hs
      have hu := UpdatePRStatus_prs w1 prID StatusMerged (some now)
      split
      · rename_i h2
        rw [h2] at hu
        rcases hu with hu | hu
        · exact Or.inl (hu.trans q)
        · exact Or.inr ⟨pr, (GetPR_ok h1).symm, hs, by rw [← q]; exact hu⟩
      · rename_i h2
        rw [h2] at hu
        rcases hu with hu | hu
        · exact Or.inl (hu.trans q)
        · exact Or.inr ⟨pr, (GetPR_ok h1).symm, hs, by rw [← q]; exact hu⟩

theorem ReassignReviewer_prs (w : World) (prID old : String) :
    (ReassignReviewer w prID old).2.pull_requests = w.pull_requests ∨
      ∃ pr reviewers, findPR w.pull_requests prID = some pr ∧ pr.Status ≠ StatusMerged ∧
        (ReassignReviewer w prID old).2.pull_requests = w.pull_requests.map (fun p =>
          if p.PullRequestID == prID then { p with AssignedReviewers := reviewers } else p) := by
  rcases hres : ReassignReviewer w prID old with ⟨r, w'⟩
  cases r with
  | error e => exact Or.inl (ReassignReviewer_error_tables hres).2
  | ok res =>
    obtain ⟨pr', new⟩ := res
    obtain ⟨pr, u, hp, hs, _, _, _, _, _, _, hprs, _, _⟩ := ReassignReviewer_ok hres
    exact Or.inr ⟨pr, _, hp, hs, hprs⟩

/-- A row whose id is not the updated one stays in the table. -/
theorem mem_map_reviewers {prs : List PullRequest} {p : PullRequest} {prID : String}
    (reviewers : List String) (hp : p ∈ prs) (hne : p.PullRequestID ≠ prID) :
    p ∈ prs.map (fun q =>
      if q.PullRequestID == prID then { q with AssignedReviewers := reviewers } else q) := by
  rw [List.mem_map]
  refine ⟨p, hp, ?_⟩
  have : (p.PullRequestID == prID) = false := by simpa using hne
  simp [this]

theorem mem_map_status {prs : List PullRequest} {p : PullRequest} {prID : String}
    (st : PullRequestStatus) (t : Option Nat) (hp : p ∈ prs) (hne : p.PullRequestID ≠ prID) :
    p ∈ prs.map (fun q =>
      if q.PullRequestID == prID then { q with Status := st, MergedAt := t } else q) := by
  rw [List.mem_map]
  refine ⟨p, hp, ?_⟩
  have : (p.PullRequestID == prID) = false := by simpa using hne
  simp [this]

/-- In a keyed table, a merged row does not have the id of a row that is not merged. -/
theorem merged_id_ne {w : World} {p pr : PullRequest} {prID : String} (hk : Keyed w)
    (hp : p ∈ w.pull_requests) (hm : p.Status = StatusMerged)
    (hf : findPR w.pull_requests prID = some pr) (hs : pr.Status ≠ StatusMerged) :
    p.PullRequestID ≠ prID := by
  intro e
  obtain ⟨hmem, hid⟩ := findPR_some_mem hf
  have : p = pr := List.inj_on_of_nodup_map hk.2 hp hmem (e.trans hid.symm)
  subst this
  exact hs hm

theorem mem_prsByReviewer {prs : List PullRequest} {userID : String} {s : PullRequestShort}
    (h : s ∈ prsByReviewer prs userID) :
    ∃ r ∈ prs, r.PullRequestID = s.PullRequestID ∧ r.Status = s.Status := by
  unfold prsByReviewer at h
  rw [List.mem_map] at h
  obtain ⟨r, hr, rfl⟩ := h
  have hr2 := (List.perm_insertionSort
    (fun a b : PullRequest => createdAtDesc a.CreatedAt b.CreatedAt = true)
    (prs.filter (fun p => decide (userID ∈ p.AssignedReviewers)))).mem_iff.1 hr
  exact ⟨r, (List.mem_filter.1 hr2).1, rfl, rfl⟩

theorem MergedStamped.of_prs {w w1 : World} (h : MergedStamped w)
    (hp : w1.pull_requests = w.pull_requests) : MergedStamped w1 := by
  unfold MergedStamped at *
  rw [hp]; exact h

theorem MergedStamped.of_reviewers {w w1 : World} {prID : String} {reviewers : List String}
    (h : MergedStamped w)
    (hp : w1.pull_requests = w.pull_requests.map (fun q =>
      if q.PullRequestID == prID then { q with AssignedReviewers := reviewers } else q)) :
    MergedStamped w1 := by
  unfold MergedStamped at *
  rw [hp]
  intro p hmem
  rw [List.mem_map] at hmem
  obtain ⟨q, hq, rfl⟩ := hmem
  have := h q hq
  split
  · exact this
  · exact this

theorem UpdatePRReviewers_prs (w : World) (prID : String) (reviewers : List String) :
    (UpdatePRReviewers w prID reviewers).2.pull_requests = w.pull_requests ∨
      (UpdatePRReviewers w prID reviewers).2.pull_requests = w.pull_requests.map (fun q =>
        if q.PullRequestID == prID then { q with AssignedReviewers := reviewers } else q) := by
  unfold UpdatePRReviewers
  simp only []
  split
  · exact Or.inl rfl
  · exact Or.inr rfl

/-- The inner loop of the second phase: a property of the table that holds
after a read and after a rewrite of the reviewers of a pull request whose
listed status is OPEN holds after the loop. -/
theorem bulkApplyPRs_induct (P : List PullRequest → Prop) (userID : String) (user : Option User)
    (prs : List PullRequestShort) (w : World)
    (hstep : ∀ (s : PullRequestShort) (reviewers : List String) (t : List PullRequest),
      s ∈ prs → s.Status = StatusOpen → P t →
      P (t.map (fun q =>
        if q.PullRequestID == s.PullRequestID then { q with AssignedReviewers := reviewers }
        else q)))
    (h : P w.pull_requests) :
    P (bulkApplyPRs userID user prs w).2.pull_requests := by
  induction prs generalizing w with
  | nil => exact h
  | cons pr rest ih =>
    have hstep2 : ∀ (s : PullRequestShort) (reviewers : List String) (t : List PullRequest),
        s ∈ rest → s.Status = StatusOpen → P t →
        P (t.map (fun q =>
          if q.PullRequestID == s.PullRequestID then { q with AssignedReviewers := reviewers }
          else q)) :=
      fun s r t hs => hstep s r t (List.mem_cons_of_mem _ hs)
    unfold bulkApplyPRs
    split
    · rename_i hopen
      split
      · rename_i h1; rw [(GetPR_quiet h1).2.2.1]; exact h
      · rename_i h1; exact ih _ hstep2 (by rw [(GetPR_quiet h1).2.2.1]; exact h)
      · rename_i fullPR w1 h1
        have q1 := (GetPR_quiet h1).2.2.1
        split
        · rw [q1]; exact h
        · rename_i u
          have q2 := selectReplacementReviewerForBulk_quiet w1 pr.PullRequestID userID u.TeamName
          split
          rename_i nr w2 h2
          rw [h2] at q2
          simp only at q2
          have h2p : P w2.pull_requests := by rw [q2.2.2.1, q1]; exact h
          split
          · have hu := UpdatePRReviewers_prs w2 pr.PullRequestID
              (replaceReviewer fullPR.AssignedReviewers userID nr)
            have h3p : P (UpdatePRReviewers w2 pr.PullRequestID
                (replaceReviewer fullPR.AssignedReviewers userID nr)).2.pull_requests := by
              rcases hu with hu | hu
              · rw [hu]; exact h2p
              · rw [hu]; exact hstep pr _ _ (List.mem_cons_self _ _) hopen h2p
            split
            · rename_i h3; rw [h3] at h3p; exact h3p
            · rename_i h3; rw [h3] at h3p; exact ih _ hstep2 h3p
          · exact ih _ hstep2 h2p
    · exact ih _ hstep2 h

theorem bulkApplyPRs_stamped (userID : String) (user : Option User)
    (prs : List PullRequestShort) (w : World) (h : MergedStamped w) :
    MergedStamped (bulkApplyPRs userID user prs w).2 := by
  have := bulkApplyPRs_induct
    (fun t => ∀ p ∈ t, p.Status = StatusMerged → p.MergedAt ≠ none) userID user prs w
    (by
      intro s reviewers t _ _ ht p hmem
      rw [List.mem_map] at hmem
      obtain ⟨q, hq, rfl⟩ := hmem
      have := ht q hq
      split
      · exact this
      · exact this)
    h
  exact this

theorem bulkApplyPRs_keeps (userID : String) (user : Option User)
    (prs : List PullRequestShort) (w : World) (p : PullRequest)
    (hlist : ∀ s ∈ prs, s.Status = StatusOpen → p.PullRequestID ≠ s.PullRequestID)
    (h : p ∈ w.pull_requests) :
    p ∈ (bulkApplyPRs userID user prs w).2.pull_requests :=
  bulkApplyPRs_induct (fun t => p ∈ t) userID user prs w
    (fun s reviewers _ hs hopen ht => mem_map_reviewers reviewers ht (hlist s hs hopen)) h

theorem bulkApply_final (userIDs deactivated : List String) (w : World) (p : PullRequest)
    (hI : Inv w) (hS : MergedStamped w) (hp : p ∈ w.pull_requests)
    (hm : p.Status = StatusMerged) :
    MergedStamped (bulkApply userIDs deactivated w).2 ∧
      p ∈ (bulkApply userIDs deactivated w).2.pull_requests := by
  induction userIDs generalizing w deactivated with
  | nil => exact ⟨hS, hp⟩
  | cons userID rest ih =>
    unfold bulkApply
    split
    · rename_i h1
      have q := (GetUser_quiet h1).2.2.1
      exact ⟨hS.of_prs q, by rw [q]; exact hp⟩
    · rename_i user w1 h1
      have q1 := GetUser_quiet h1
      split
      · rename_i h2
        have q := (q1.trans (GetPRsByReviewer_quiet h2)).2.2.1
        exact ⟨hS.of_prs q, by rw [q]; exact hp⟩
      · rename_i prs w2 h2
        have q2 := q1.trans (GetPRsByReviewer_quiet h2)
        have i2 := q2.inv hI
        have s2 := hS.of_prs q2.2.2.1
        have hp2 : p ∈ w2.pull_requests := by rw [q2.2.2.1]; exact hp
        have hlist : ∀ s ∈ prs, s.Status = StatusOpen → p.PullRequestID ≠ s.PullRequestID := by
          intro s hs hopen e
          rw [GetPRsByReviewer_ok h2] at hs
          obtain ⟨r, hr, hid, hst⟩ := mem_prsByReviewer hs
          have hr1 : r ∈ w.pull_requests := by rw [← q1.2.2.1]; exact hr
          have : p = r := List.inj_on_of_nodup_map hI.1.2 hp hr1 (e.trans hid.symm)
          subst this
          rw [hm] at hst
          rw [← hst] at hopen
          exact absurd hopen (by decide)
        have i3 := bulkApplyPRs_inv userID user prs w2 i2
        have s3 := bulkApplyPRs_stamped userID user prs w2 s2
        have hp3 := bulkApplyPRs_keeps userID user prs w2 p hlist hp2
        split
        · rename_i h3; rw [h3] at s3 hp3; exact ⟨s3, hp3⟩
        · rename_i w3 h3
          rw [h3] at i3 s3 hp3
          have i4 := UpdateUserActivity_inv userID false i3
          have q4 := UpdateUserActivity_prs w3 userID false
          split
          · rename_i h4
            rw [h4] at q4
            exact ⟨s3.of_prs q4, by rw [show _ = _ from q4]; exact hp3⟩
          · rename_i h4
            rw [h4] at q4 i4
            exact ih _ _ i4 (s3.of_prs q4) (by rw [show _ = _ from q4]; exact hp3)

theorem bulkApply_stamped (userIDs deactivated : List String) (w : World)
    (hS : MergedStamped w) : MergedStamped (bulkApply userIDs deactivated w).2 := by
  induction userIDs generalizing w deactivated with
  | nil => exact hS
  | cons userID rest ih =>
    unfold bulkApply
    split
    · rename_i h1; exact hS.of_prs (GetUser_quiet h1).2.2.1
    · rename_i user w1 h1
      have q1 := GetUser_quiet h1
      split
      · rename_i h2; exact hS.of_prs (q1.trans (GetPRsByReviewer_quiet h2)).2.2.1
      · rename_i prs w2 h2
        have s2 := hS.of_prs (q1.trans (GetPRsByReviewer_quiet h2)).2.2.1
        have s3 := bulkApplyPRs_stamped userID user prs w2 s2
        split
        · rename_i h3; rw [h3] at s3; exact s3
        · rename_i w3 h3
          rw [h3] at s3
          have q4 := UpdateUserActivity_prs w3 userID false
          split
          · rename_i h4; rw [h4] at q4; exact s3.of_prs q4
          · rename_i h4; rw [h4] at q4; exact ih _ _ (s3.of_prs q4)

theorem step_stamped {w : World} (c : Call) (hS : MergedStamped w) : MergedStamped (step w c) := by
  cases c with
  | CreateTeam team => exact hS.of_prs (CreateTeam_prs w team)
  | SetUserActivity userID b => exact hS.of_prs (SetUserActivity_prs w userID b)
  | CreatePR prID prName authorID now =>
    rcases CreatePR_prs w prID prName authorID now with h | ⟨pr, hopen, h⟩
    · exact hS.of_prs h
    · intro p hp hm
      have hp2 : p ∈ w.pull_requests ++ [pr] := by rw [← h]; exact hp
      rw [List.mem_append, List.mem_singleton] at hp2
      rcases hp2 with hp2 | hp2
      · exact hS p hp2 hm
      · subst hp2
        rw [hopen] at hm
        exact absurd hm (by decide)
  | MergePR prID now =>
    rcases MergePR_prs w prID now with h | ⟨pr, _, _, h⟩
    · exact hS.of_prs h
    · intro p hp hm
      have hp2 : p ∈ w.pull_requests.map (fun p =>
          if p.PullRequestID == prID then
            { p with Status := StatusMerged, MergedAt := some now } else p) := by
        rw [← h]; exact hp
      rw [List.mem_map] at hp2
      obtain ⟨q, hq, hqe⟩ := hp2
      by_cases e : (q.PullRequestID == prID) = true
      · rw [if_pos e] at hqe
        rw [← hqe]; simp
      · rw [if_neg e] at hqe
        subst hqe
        exact hS q hq hm
  | ReassignReviewer prID old =>
    rcases ReassignReviewer_prs w prID old with h | ⟨pr, reviewers, _, _, h⟩
    · exact hS.of_prs h
    · exact hS.of_reviewers h
  | BulkDeactivateUsers userIDs =>
    show MergedStamped (BulkDeactivateUsers w userIDs).2
    unfold BulkDeactivateUsers
    have q := bulkCheck_quiet userIDs w
    split
    · rename_i h1; rw [h1] at q; exact hS.of_prs q.2.2.1
    · rename_i w1 h1
      rw [h1] at q
      have s2 := bulkApply_stamped userIDs [] w1 (hS.of_prs q.2.2.1)
      split
      rename_i h2
      rw [h2] at s2
      exact s2

theorem step_keeps {w : World} (c : Call) {p : PullRequest} (hI : Inv w) (hS : MergedStamped w)
    (hp : p ∈ w.pull_requests) (hm : p.Status = StatusMerged) :
    p ∈ (step w c).pull_requests := by
  cases c with
  | CreateTeam team =>
    show p ∈ (Service.CreateTeam w team).2.pull_requests
    rw [CreateTeam_prs]; exact hp
  | SetUserActivity userID b =>
    show p ∈ (SetUserActivity w userID b).2.pull_requests
    rw [SetUserActivity_prs]; exact hp
  | CreatePR prID prName authorID now =>
    show p ∈ (Service.CreatePR w prID prName authorID now).2.pull_requests
    rcases CreatePR_prs w prID prName authorID now with h | ⟨pr, _, h⟩
    · rw [h]; exact hp
    · rw [h]; exact List.mem_append_left _ hp
  | MergePR prID now =>
    show p ∈ (MergePR w prID now).2.pull_requests
    rcases MergePR_prs w prID now with h | ⟨pr, hf, hs, h⟩
    · rw [h]; exact hp
    · rw [h]; exact mem_map_status _ _ hp (merged_id_ne hI.1 hp hm hf hs)
  | ReassignReviewer prID old =>
    show p ∈ (ReassignReviewer w prID old).2.pull_requests
    rcases ReassignReviewer_prs w prID old with h | ⟨pr, reviewers, hf, hs, h⟩
    · rw [h]; exact hp
    · rw [h]; exact mem_map_reviewers _ hp (merged_id_ne hI.1 hp hm hf hs)
  | BulkDeactivateUsers userIDs =>
    show p ∈ (BulkDeactivateUsers w userIDs).2.pull_requests
    unfold BulkDeactivateUsers
    have q := bulkCheck_quiet userIDs w
    split
    · rename_i h1; rw [h1] at q; rw [show _ = _ from q.2.2.1]; exact hp
    · rename_i w1 h1
      rw [h1] at q
      have s2 := (bulkApply_final userIDs [] w1 p (q.inv hI) (hS.of_prs q.2.2.1)
        (by rw [show _ = _ from q.2.2.1]; exact hp) hm).2
      split
      rename_i h2
      rw [h2] at s2
      exact s2

theorem run_stamped (calls : List Call) {w : World} (hS : MergedStamped w) :
    MergedStamped (run w calls) := by
  induction calls generalizing w with
  | nil => exact hS
  | cons c rest ih => exact ih (step_stamped c hS)

theorem run_keeps (calls : List Call) {w : World} {p : PullRequest} (hI : Inv w)
    (hS : MergedStamped w) (hp : p ∈ w.pull_requests) (hm : p.Status = StatusMerged) :
    p ∈ (run w calls).pull_requests := by
  induction calls generalizing w with
  | nil => exact hp
  | cons c rest ih => exact ih (step_inv c hI) (step_stamped c hS) (step_keeps c hI hS hp hm)

/-- C15: in a state reached from the empty database by engine calls, a pull
request with status MERGED has a merge time, and after any further engine
calls it is stored unchanged: the pull request with its id has the same
status and the same reviewers. -/
theorem merged_is_final (faults : List (Option String)) (rand : List Nat)
    (calls later : List Call) (p : PullRequest)
    (hp : p ∈ (run (World.empty faults rand) calls).pull_requests)
    (hm : p.Status = StatusMerged) :
    p.MergedAt ≠ none ∧
      p ∈ (run (run (World.empty faults rand) calls) later).pull_requests ∧
      ∀ q ∈ (run (run (World.empty faults rand) calls) later).pull_requests,
        q.PullRequestID = p.PullRequestID →
        q.Status = StatusMerged ∧ q.AssignedReviewers = p.AssignedReviewers ∧
          q.MergedAt = p.MergedAt := by
  have hS0 : MergedStamped (World.empty faults rand) := by
    intro q hq; simp [World.empty] at hq
  have hI := run_inv calls (Inv_empty faults rand)
  have hS := run_stamped calls hS0
  have hkeep := run_keeps later hI hS hp hm
  refine ⟨hS p hp hm, hkeep, ?_⟩
  intro q hq hid
  have hI2 := run_inv later hI
  have : q = p := List.inj_on_of_nodup_map hI2.1.2 hq hkeep hid
  subst this
  exact ⟨hm, rfl, rfl⟩

/-- Witness of C15: the merged `p1` of `exMerged` after a reassignment, a
bulk deactivation and a second merge are attempted. -/
theorem merged_is_final_witness :
    (some 9 : Option Nat) ≠ none ∧
      (⟨"p1", "n", "u1", "MERGED", ["u2", "u3"], some 5, some 9⟩ : PullRequest) ∈
        (run (run (World.empty [] [0, 0])
          [.CreateTeam exTeam, .CreatePR "p1" "n" "u1" 5, .MergePR "p1" 9])
          [.ReassignReviewer "p1" "u2", .BulkDeactivateUsers ["u2"], .MergePR "p1" 11]).pull_requests ∧
      ∀ q ∈ (run (run (World.empty [] [0, 0])
          [.CreateTeam exTeam, .CreatePR "p1" "n" "u1" 5, .MergePR "p1" 9])
          [.ReassignReviewer "p1" "u2", .BulkDeactivateUsers ["u2"], .MergePR "p1" 11]).pull_requests,
        q.PullRequestID = "p1" →
        q.Status = StatusMerged ∧ q.AssignedReviewers = ["u2", "u3"] ∧ q.MergedAt = some 9 :=
  merged_is_final [] [0, 0] [.CreateTeam exTeam, .CreatePR "p1" "n" "u1" 5, .MergePR "p1" 9]
    [.ReassignReviewer "p1" "u2", .BulkDeactivateUsers ["u2"], .MergePR "p1" 11]
    ⟨"p1", "n", "u1", "MERGED", ["u2", "u3"], some 5, some 9⟩ (by decide) rfl

/-! ## Errors of the repository -/

theorem bulkCheck_append (a b : List String) (w : World) :
    bulkCheck (a ++ b) w =
      match bulkCheck a w with
      | (some e, w1) => (some e, w1)
      | (none, w1) => bulkCheck b w1 := by
  induction a generalizing w with
  | nil => simp [bulkCheck]
  | cons x rest ih =>
    simp only [List.cons_append]
    rw [bulkCheck, bulkCheck]
    split
    · rfl
    · rfl
    · split
      · rfl
      · split
        · rfl
        · exact ih _

theorem bulkApplyPRs_append (userID : String) (user : Option User)
    (a b : List PullRequestShort) (w : World) :
    bulkApplyPRs userID user (a ++ b) w =
      match bulkApplyPRs userID user a w with
      | (some e, w1) => (some e, w1)
      | (none, w1) => bulkApplyPRs userID user b w1 := by
  induction a generalizing w with
  | nil => simp [bulkApplyPRs]
  | cons x rest ih =>
    simp only [List.cons_append]
    rw [bulkApplyPRs, bulkApplyPRs]
    split
    · split
      · rfl
      · exact ih _
      · split
        · rfl
        · split
          split
          · split
            · rfl
            · exact ih _
          · exact ih _
    · exact ih _

theorem bulkApply_append (a b : List String) (d : List String) (w : World) :
    bulkApply (a ++ b) d w =
      match bulkApply a d w with
      | ((d1, some e), w1) => ((d1, some e), w1)
      | ((d1, none), w1) => bulkApply b d1 w1 := by
  induction a generalizing w d with
  | nil => simp [bulkApply]
  | cons x rest ih =>
    simp only [List.cons_append]
    rw [bulkApply, bulkApply]
    split
    · rfl
    · split
      · rfl
      · split
        · rfl
        · split
          · rfl
          · exact ih _ _

/-- C17 on the code: in `exDown` the query of `GetPRsByReviewer` fails, and
`GetReview` returns the empty list and no error; in `exDownThird` the third
repository call of `BulkDeactivateUsers`, the `GetPR` made inside
`selectReplacementReviewerForBulk`, fails, and the call returns
`ErrBulkDeactivateFailed` instead of the storage error. -/
theorem storage_error_dropped :
    (GetPRsByReviewer exDown "u2").1 =
      .error (.storage "failed to get PRs by reviewer: down") ∧
    (GetReview exDown "u2").1 = [] ∧
    (GetPR (GetPRsByReviewer (GetUser exDownThird "u2").2 "u2").2 "p1").1 =
      .error (.storage "failed to get PR: down") ∧
    (BulkDeactivateUsers exDownThird ["u2"]).1 = (none, some .ErrBulkDeactivateFailed) := by
  refine ⟨rfl, rfl, rfl, rfl⟩

/-- The first phase stops at one user with an error. -/
theorem BulkDeactivateUsers_checkStop {w wk w1 : World} {front rest : List String}
    {userID : String} {e : Err}
    (hfront : bulkCheck front w = (none, wk))
    (hhead : ∀ tail, bulkCheck (userID :: tail) wk = (some e, w1)) :
    BulkDeactivateUsers w (front ++ userID :: rest) = ((none, some e), w1) := by
  unfold BulkDeactivateUsers
  rw [bulkCheck_append, hfront]
  simp only [hhead rest]

/-- The second phase stops at one user with an error. -/
theorem BulkDeactivateUsers_applyStop {w wA wk w1 : World} {front rest d : List String}
    {userID : String} {e : Err}
    (hcheck : bulkCheck (front ++ userID :: rest) w = (none, wA))
    (hfront : bulkApply front [] wA = ((d, none), wk))
    (hhead : ∀ tail, bulkApply (userID :: tail) d wk = ((d, some e), w1)) :
    BulkDeactivateUsers w (front ++ userID :: rest) = ((some d, some e), w1) := by
  unfold BulkDeactivateUsers
  rw [hcheck]
  simp only
  rw [bulkApply_append, hfront]
  simp only [hhead rest]

/-- The inner loop of the second phase stops at one pull request with an error. -/
theorem bulkApplyPRs_stop {w2 w3 w4 : World} {userID : String} {user : Option User}
    {front rest : List PullRequestShort} {pr : PullRequestShort} {e : Err}
    (hfront : bulkApplyPRs userID user front w2 = (none, w3))
    (hhead : ∀ tail, bulkApplyPRs userID user (pr :: tail) w3 = (some e, w4)) :
    bulkApplyPRs userID user (front ++ pr :: rest) w2 = (some e, w4) := by
  rw [bulkApplyPRs_append, hfront]
  simp only [hhead rest]

/-- C17, amended: in `CreateTeam`, `GetTeam`, `SetUserActivity`, `CreatePR`,
`MergePR`, `ReassignReviewer` and `GetReviewStats`, when a repository call
returns an error, the operation returns this error and the state that call
left, so no further call is made. `BulkDeactivateUsers` does so for the calls
it makes itself, at any position of its loops: `GetUser` and
`GetPRsByReviewer` in both phases, `GetPR`, `UpdatePRReviewers` and
`UpdateUserActivity` in the second phase, where the error comes with the
users deactivated so far. -/
theorem storage_error_returned (e : Err) :
    -- CreateTeam
    (∀ (w w1 : World) (team : Team),
      TeamExists w team.TeamName = (.error e, w1) →
      Service.CreateTeam w team = (.error e, w1)) ∧
    (∀ (w w1 w2 : World) (team : Team),
      TeamExists w team.TeamName = (.ok false, w1) →
      PostgresRepository.CreateTeam w1 team = (.error e, w2) →
      Service.CreateTeam w team = (.error e, w2)) ∧
    -- GetTeam, GetReviewStats
    (∀ (w w1 : World) (teamName : String),
      PostgresRepository.GetTeam w teamName = (.error e, w1) →
      Service.GetTeam w teamName = (.error e, w1)) ∧
    (∀ (w w1 : World),
      PostgresRepository.GetReviewStats w = (.error e, w1) →
      Service.GetReviewStats w = (.error e, w1)) ∧
    -- SetUserActivity
    (∀ (w w1 : World) (userID : String) (isActive : Bool),
      GetUser w userID = (.error e, w1) →
      SetUserActivity w userID isActive = (.error e, w1)) ∧
    (∀ (w w1 w2 : World) (userID : String) (isActive : Bool) (user : User),
      GetUser w userID = (.ok (some user), w1) →
      UpdateUserActivity w1 userID isActive = (.error e, w2) →
      SetUserActivity w userID isActive = (.error e, w2)) ∧
    -- CreatePR
    (∀ (w w1 : World) (prID prName authorID : String) (now : Nat),
      PRExists w prID = (.error e, w1) →
      Service.CreatePR w prID prName authorID now = (.error e, w1)) ∧
    (∀ (w w1 w2 : World) (prID prName authorID : String) (now : Nat),
      PRExists w prID = (.ok false, w1) →
      GetUser w1 authorID = (.error e, w2) →
      Service.CreatePR w prID prName authorID now = (.error e, w2)) ∧
    (∀ (w w1 w2 w3 : World) (prID prName authorID : String) (now : Nat) (author : User),
      PRExists w prID = (.ok false, w1) →
      GetUser w1 authorID = (.ok (some author), w2) →
      PostgresRepository.GetTeam w2 author.TeamName = (.error e, w3) →
      Service.CreatePR w prID prName authorID now = (.error e, w3)) ∧
    (∀ (w w1 w2 w3 w4 : World) (prID prName authorID : String) (now : Nat) (author : User)
      (team : Team),
      PRExists w prID = (.ok false, w1) →
      GetUser w1 authorID = (.ok (some author), w2) →
      PostgresRepository.GetTeam w2 author.TeamName = (.ok (some team), w3) →
      PostgresRepository.CreatePR
          { w3 with rand := (selectReviewers team authorID w3.rand).2 }
          { PullRequestID := prID, PullRequestName := prName, AuthorID := authorID,
            Status := StatusOpen,
            AssignedReviewers := (selectReviewers team authorID w3.rand).1,
            CreatedAt := some now, MergedAt := none } = (.error e, w4) →
      Service.CreatePR w prID prName authorID now = (.error e, w4)) ∧
    -- MergePR
    (∀ (w w1 : World) (prID : String) (now : Nat),
      GetPR w prID = (.error e, w1) →
      MergePR w prID now = (.error e, w1)) ∧
    (∀ (w w1 w2 : World) (prID : String) (now : Nat) (pr : PullRequest),
      GetPR w prID = (.ok (some pr), w1) → pr.Status ≠ StatusMerged →
      UpdatePRStatus w1 prID StatusMerged (some now) = (.error e, w2) →
      MergePR w prID now = (.error e, w2)) ∧
    -- ReassignReviewer
    (∀ (w w1 : World) (prID oldUserID : String),
      GetPR w prID = (.error e, w1) →
      ReassignReviewer w prID oldUserID = (.error e, w1)) ∧
    (∀ (w w1 w2 : World) (prID oldUserID : String) (pr : PullRequest),
      GetPR w prID = (.ok (some pr), w1) → pr.Status ≠ StatusMerged →
      oldUserID ∈ pr.AssignedReviewers →
      GetUser w1 oldUserID = (.error e, w2) →
      ReassignReviewer w prID oldUserID = (.error e, w2)) ∧
    (∀ (w w1 w2 w3 : World) (prID oldUserID : String) (pr : PullRequest) (oldReviewer : User),
      GetPR w prID = (.ok (some pr), w1) → pr.Status ≠ StatusMerged →
      oldUserID ∈ pr.AssignedReviewers →
      GetUser w1 oldUserID = (.ok (some oldReviewer), w2) →
      PostgresRepository.GetTeam w2 oldReviewer.TeamName = (.error e, w3) →
      ReassignReviewer w prID oldUserID = (.error e, w3)) ∧
    (∀ (w w1 w2 w3 w4 : World) (prID oldUserID : String) (pr : PullRequest) (oldReviewer : User)
      (team : Team),
      GetPR w prID = (.ok (some pr), w1) → pr.Status ≠ StatusMerged →
      oldUserID ∈ pr.AssignedReviewers →
      GetUser w1 oldUserID = (.ok (some oldReviewer), w2) →
      PostgresRepository.GetTeam w2 oldReviewer.TeamName = (.ok (some team), w3) →
      (selectReplacementReviewer team oldUserID pr.AuthorID pr.AssignedReviewers w3.rand).1 ≠ "" →
      UpdatePRReviewers
          { w3 with rand :=
            (selectReplacementReviewer team oldUserID pr.AuthorID pr.AssignedReviewers w3.rand).2 }
          prID
          (replaceReviewer pr.AssignedReviewers oldUserID
            (selectReplacementReviewer team oldUserID pr.AuthorID pr.AssignedReviewers
              w3.rand).1) = (.error e, w4) →
      ReassignReviewer w prID oldUserID = (.error e, w4)) ∧
    -- BulkDeactivateUsers, first phase
    (∀ (w wk w1 : World) (front rest : List String) (userID : String),
      bulkCheck front w = (none, wk) →
      GetUser wk userID = (.error e, w1) →
      BulkDeactivateUsers w (front ++ userID :: rest) = ((none, some e), w1)) ∧
    (∀ (w wk w1 w2 : World) (front rest : List String) (userID : String) (user : User),
      bulkCheck front w = (none, wk) →
      GetUser wk userID = (.ok (some user), w1) →
      GetPRsByReviewer w1 userID = (.error e, w2) →
      BulkDeactivateUsers w (front ++ userID :: rest) = ((none, some e), w2)) ∧
    -- BulkDeactivateUsers, second phase
    (∀ (w wA wk w1 : World) (front rest d : List String) (userID : String),
      bulkCheck (front ++ userID :: rest) w = (none, wA) →
      bulkApply front [] wA = ((d, none), wk) →
      GetUser wk userID = (.error e, w1) →
      BulkDeactivateUsers w (front ++ userID :: rest) = ((some d, some e), w1)) ∧
    (∀ (w wA wk w1 w2 : World) (front rest d : List String) (userID : String)
      (user : Option User),
      bulkCheck (front ++ userID :: rest) w = (none, wA) →
      bulkApply front [] wA = ((d, none), wk) →
      GetUser wk userID = (.ok user, w1) →
      GetPRsByReviewer w1 userID = (.error e, w2) →
      BulkDeactivateUsers w (front ++ userID :: rest) = ((some d, some e), w2)) ∧
    (∀ (w wA wk w1 w2 w3 w4 : World) (front rest d : List String) (userID : String)
      (user : Option User) (prsFront prsRest : List PullRequestShort) (pr : PullRequestShort),
      bulkCheck (front ++ userID :: rest) w = (none, wA) →
      bulkApply front [] wA = ((d, none), wk) →
      GetUser wk userID = (.ok user, w1) →
      GetPRsByReviewer w1 userID = (.ok (prsFront ++ pr :: prsRest), w2) →
      bulkApplyPRs userID user prsFront w2 = (none, w3) →
      pr.Status = StatusOpen →
      GetPR w3 pr.PullRequestID = (.error e, w4) →
      BulkDeactivateUsers w (front ++ userID :: rest) = ((some d, some e), w4)) ∧
    (∀ (w wA wk w1 w2 w3 w4 w5 w6 : World) (front rest d : List String) (userID : String)
      (user : User) (prsFront prsRest : List PullRequestShort) (pr : PullRequestShort)
      (fullPR : PullRequest) (newReviewer : String),
      bulkCheck (front ++ userID :: rest) w = (none, wA) →
      bulkApply front [] wA = ((d, none), wk) →
      GetUser wk userID = (.ok (some user), w1) →
      GetPRsByReviewer w1 userID = (.ok (prsFront ++ pr :: prsRest), w2) →
      bulkApplyPRs userID (some user) prsFront w2 = (none, w3) →
      pr.Status = StatusOpen →
      GetPR w3 pr.PullRequestID = (.ok (some fullPR), w4) →
      selectReplacementReviewerForBulk w4 pr.PullRequestID userID user.TeamName =
        (newReviewer, w5) →
      newReviewer ≠ "" →
      UpdatePRReviewers w5 pr.PullRequestID
        (replaceReviewer fullPR.AssignedReviewers userID newReviewer) = (.error e, w6) →
      BulkDeactivateUsers w (front ++ userID :: rest) = ((some d, some e), w6)) ∧
    (∀ (w wA wk w1 w2 w3 w4 : World) (front rest d : List String) (userID : String)
      (user : Option User) (prs : List PullRequestShort),
      bulkCheck (front ++ userID :: rest) w = (none, wA) →
      bulkApply front [] wA = ((d, none), wk) →
      GetUser wk userID = (.ok user, w1) →
      GetPRsByReviewer w1 userID = (.ok prs, w2) →
      bulkApplyPRs userID user prs w2 = (none, w3) →
      UpdateUserActivity w3 userID false = (.error e, w4) →
      BulkDeactivateUsers w (front ++ userID :: rest) = ((some d, some e), w4)) := by
  refine ⟨?_, ?_, ?_, ?_, ?_, ?_, ?_, ?_, ?_, ?_, ?_, ?_, ?_, ?_, ?_, ?_, ?_, ?_, ?_, ?_, ?_, ?_,
    ?_⟩
  · intro w w1 team h1
    simp only [Service.CreateTeam, h1]
  · intro w w1 w2 team h1 h2
    simp only [Service.CreateTeam, h1, h2]
    simp
  · intro w w1 teamName h1
    simp only [Service.GetTeam, h1]
  · intro w w1 h1
    simp only [Service.GetReviewStats, h1]
  · intro w w1 userID isActive h1
    simp only [SetUserActivity, h1]
  · intro w w1 w2 userID isActive user h1 h2
    simp only [SetUserActivity, h1, h2]
  · intro w w1 prID prName authorID now h1
    simp only [Service.CreatePR, h1]
  · intro w w1 w2 prID prName authorID now h1 h2
    simp only [Service.CreatePR, h1, h2]
    simp
  · intro w w1 w2 w3 prID prName authorID now author h1 h2 h3
    simp only [Service.CreatePR, h1, h2, h3]
    simp
  · intro w w1 w2 w3 w4 prID prName authorID now author team h1 h2 h3 h4
    simp only [Service.CreatePR, h1, h2, h3, h4]
    simp
  · intro w w1 prID now h1
    simp only [MergePR, h1]
  · intro w w1 w2 prID now pr h1 hs h2
    simp only [MergePR, h1, h2, hs]
    simp
  · intro w w1 prID oldUserID h1
    simp only [ReassignReviewer, h1]
  · intro w w1 w2 prID oldUserID pr h1 hs hc h2
    have hc2 := (contains_iff _ _).2 hc
    simp only [ReassignReviewer, h1, h2, hs, hc2]
    simp
  · intro w w1 w2 w3 prID oldUserID pr u h1 hs hc h2 h3
    have hc2 := (contains_iff _ _).2 hc
    simp only [ReassignReviewer, h1, h2, h3, hs, hc2]
    simp
  · intro w w1 w2 w3 w4 prID oldUserID pr u team h1 hs hc h2 h3 hne h4
    have hc2 := (contains_iff _ _).2 hc
    simp only [ReassignReviewer, h1, h2, h3, h4, hs, hc2, hne]
    simp
  · intro w wk w1 front rest userID hfront h1
    apply BulkDeactivateUsers_checkStop hfront
    intro tail
    rw [bulkCheck]; simp only [h1]
  · intro w wk w1 w2 front rest userID user hfront h1 h2
    apply BulkDeactivateUsers_checkStop hfront
    intro tail
    rw [bulkCheck]; simp only [h1, h2]
  · intro w wA wk w1 front rest d userID hcheck hfront h1
    apply BulkDeactivateUsers_applyStop hcheck hfront
    intro tail
    rw [bulkApply]; simp only [h1]
  · intro w wA wk w1 w2 front rest d userID user hcheck hfront h1 h2
    apply BulkDeactivateUsers_applyStop hcheck hfront
    intro tail
    rw [bulkApply]; simp only [h1, h2]
  · intro w wA wk w1 w2 w3 w4 front rest d userID user prsFront prsRest pr hcheck hfront h1 h2
      h3 hopen h4
    apply BulkDeactivateUsers_applyStop hcheck hfront
    intro tail
    have hin : bulkApplyPRs userID user (prsFront ++ pr :: prsRest) w2 = (some e, w4) := by
      apply bulkApplyPRs_stop h3
      intro t
      rw [bulkApplyPRs]; simp only [hopen, if_true, h4]
    rw [bulkApply]; simp only [h1, h2, hin]
  · intro w wA wk w1 w2 w3 w4 w5 w6 front rest d userID user prsFront prsRest pr fullPR
      newReviewer hcheck hfront h1 h2 h3 hopen h4 h5 hne h6
    apply BulkDeactivateUsers_applyStop hcheck hfront
    intro tail
    have hin : bulkApplyPRs userID (some user) (prsFront ++ pr :: prsRest) w2 = (some e, w6) := by
      apply bulkApplyPRs_stop h3
      intro t
      rw [bulkApplyPRs]; simp only [hopen, if_true, h4, h5, hne, ne_eq, not_false_eq_true, h6]
    rw [bulkApply]; simp only [h1, h2, hin]
  · intro w wA wk w1 w2 w3 w4 front rest d userID user prs hcheck hfront h1 h2 h3 h4
    apply BulkDeactivateUsers_applyStop hcheck hfront
    intro tail
    rw [bulkApply]; simp only [h1, h2, h3, h4]


/-- Witness of C17: in `exDown` the read of the user fails and
`SetUserActivity` returns the error of `GetUser`. -/
theorem storage_error_returned_witness :
    SetUserActivity exDown "u2" false =
      (.error (.storage "failed to get user: down"), (GetUser exDown "u2").2) :=
  (storage_error_returned (.storage "failed to get user: down")).2.2.2.2.1
    exDown (GetUser exDown "u2").2 "u2" false rfl

end PRReviewer
